import Mathlib

/-!
Verification development for the `atlcli` export package
(`packages/export/src/atlcli_export`).  The Python sources are embedded
shallowly: pure text transformations become executable Lean functions on
`List Char` / `String`, scanning loops carry an explicit fuel argument that
is initialised with the input length (every loop of the source consumes at
least one character per step, so this fuel is always sufficient), and
Python's `re`-based rewriting is embedded by a deterministic matcher that
reproduces the backtracking order of the concrete patterns used by the
source.  Character classes (`\w`, `\s`) are modelled over ASCII, which
covers every string the claims mention.
-/

namespace Atlcli

/-- Single quote character, kept out of string literals. -/
def sq : Char := Char.ofNat 39

/-- The string consisting of one single-quote character. -/
def sqs : String := String.singleton sq

/-- ASCII letter, the class `[a-zA-Z]`. -/
def isAlphaAZ (c : Char) : Bool :=
  (decide ('a' ≤ c) && decide (c ≤ 'z')) || (decide ('A' ≤ c) && decide (c ≤ 'Z'))

/-- ASCII digit, the class `[0-9]`. -/
def isDigit09 (c : Char) : Bool :=
  decide ('0' ≤ c) && decide (c ≤ '9')

/-- Characters allowed after the first character of a Scroll variable name,
the class `[a-zA-Z0-9.]`. -/
def isScrollVarChar (c : Char) : Bool :=
  isAlphaAZ c || isDigit09 c || decide (c = '.')

/-- ASCII word character, Python's `\w` restricted to ASCII. -/
def isWordChar (c : Char) : Bool :=
  isAlphaAZ c || isDigit09 c || decide (c = '_')

/-- ASCII whitespace, Python's `\s` restricted to ASCII. -/
def isPySpace (c : Char) : Bool :=
  decide (c = ' ') || decide (c = '\t') || decide (c = '\n') ||
  decide (c = '\r') || decide (c = Char.ofNat 11) || decide (c = Char.ofNat 12)

/-- `leadsWith pat cs` holds when `pat` is a prefix of `cs`. -/
def leadsWith : List Char → List Char → Bool
  | [], _ => true
  | _ :: _, [] => false
  | p :: ps, c :: cs => decide (p = c) && leadsWith ps cs

/-- `containsSub pat cs` holds when `pat` occurs as a contiguous substring
of `cs`. -/
def containsSub (pat : List Char) : List Char → Bool
  | [] => leadsWith pat []
  | c :: cs => leadsWith pat (c :: cs) || containsSub pat cs

/-!
## Placeholder dialect translator (`docm_support.py`)

`SCROLL_MAPPINGS`, `convert_scroll_placeholder` and
`convert_scroll_placeholders` translate the legacy `$scroll.x` dialect into
the native template syntax.  The regular expression of the source,

`\$(!)?scroll\.([a-zA-Z][a-zA-Z0-9.]*?)(?:\.?\("([^"]+)"\))?(?=\s|<|$|[^\w.])`,

is embedded by `matchScrollAt` below.  Over ASCII the lookahead
`(?=\s|<|$|[^\w.])` is equivalent to "end of input or the next character is
neither a word character nor a dot", which is how `boundaryOk` states it.
-/

/-- The table `SCROLL_MAPPINGS` of `docm_support.py`. -/
def SCROLL_MAPPINGS : List (String × String) :=
  [("title", "title"),
   ("content", "content"),
   ("creator.fullName", "author"),
   ("creator.email", "authorEmail"),
   ("modifier.fullName", "modifier"),
   ("modifier.email", "modifierEmail"),
   ("creationdate", "created"),
   ("modificationdate", "modified"),
   ("pageid", "pageId"),
   ("pageurl", "pageUrl"),
   ("tinyurl", "tinyUrl"),
   ("pagelabels", "labels"),
   ("space.key", "spaceKey"),
   ("space.name", "spaceName"),
   ("space.url", "spaceUrl"),
   ("exporter.fullName", "exportedBy"),
   ("exportdate", "exportDate"),
   ("template.name", "templateName")]

/-- `SCROLL_MAPPINGS.get(scroll_var, scroll_var)`. -/
def scrollLookup (v : String) : String :=
  (SCROLL_MAPPINGS.lookup v).getD v

/-- `convert_scroll_placeholder` of `docm_support.py`: build the
replacement text for one matched placeholder from its three groups. -/
def convert_scroll_placeholder (nullSafe : Bool) (scrollVar : String)
    (dateFormat : Option String) : String :=
  let jinjaVar := scrollLookup scrollVar
  let filters :=
    (match dateFormat with
     | some f => ["date(" ++ sqs ++ f ++ sqs ++ ")"]
     | none => []) ++
    (if nullSafe then ["default(" ++ sqs ++ sqs ++ ")"] else [])
  if filters.isEmpty then
    "\x7b\x7b " ++ jinjaVar ++ " \x7d\x7d"
  else
    "\x7b\x7b " ++ jinjaVar ++ " | " ++ " | ".intercalate filters ++ " \x7d\x7d"

/-- The lookahead `(?=\s|<|$|[^\w.])` at a given suffix (ASCII). -/
def boundaryOk : List Char → Bool
  | [] => true
  | c :: _ => !(isWordChar c || decide (c = '.'))

/-- The body `\("([^"]+)"\)` of the date clause tried at a suffix.
`[^"]+` is greedy but the following `"` forces it to stop at the first
quote, so the scan is deterministic. -/
def dateClauseCore (r : List Char) : Option (List Char × List Char) :=
  match r with
  | c1 :: c2 :: r2 =>
    if c1 = '(' ∧ c2 = '"' then
      let fmt := r2.takeWhile (fun c => !(decide (c = '"')))
      match fmt, r2.drop fmt.length with
      | [], _ => none
      | _ :: _, c3 :: c4 :: r4 => if c3 = '"' ∧ c4 = ')' then some (fmt, r4) else none
      | _ :: _, _ => none
    else none
  | _ => none

/-- The optional date clause `(?:\.?\("([^"]+)"\))?` tried at a suffix:
returns the format characters and the rest after the closing `")`.
`\.?` is greedy; when the leading dot is consumed but the body fails, the
retry without the dot needs a `(` where the dot stands, so it fails too
and no separate backtracking case is needed. -/
def parseDateClause (cs : List Char) : Option (List Char × List Char) :=
  match cs with
  | c :: r1 => if c = '.' then dateClauseCore r1 else dateClauseCore (c :: r1)
  | [] => dateClauseCore []

/-- The lazy variable loop: `acc` holds the characters matched so far by
group 2 (`[a-zA-Z][a-zA-Z0-9.]*?`).  In backtracking order the engine
tries, for the current shortest group 2: the date clause followed by the
lookahead, then the empty optional followed by the lookahead, and only then
extends group 2 by one more character. -/
def varLoop (acc : List Char) : List Char → Option (List Char × Option (List Char) × List Char)
  | [] => some (acc, none, [])
  | c :: r3 =>
    match parseDateClause (c :: r3) with
    | some (fmt, r2) =>
      if boundaryOk r2 then some (acc, some fmt, r2)
      else if boundaryOk (c :: r3) then some (acc, none, c :: r3)
      else if isScrollVarChar c then varLoop (acc ++ [c]) r3
      else none
    | none =>
      if boundaryOk (c :: r3) then some (acc, none, c :: r3)
      else if isScrollVarChar c then varLoop (acc ++ [c]) r3
      else none

/-- The part of the placeholder pattern after `\$(!)?`: the literal
`scroll.`, the lazy variable, the optional date clause and the
lookahead. -/
def matchScrollTail (nullSafe : Bool) (rest1 : List Char) : Option (String × List Char) :=
  if leadsWith "scroll.".data rest1 then
    match rest1.drop 7 with
    | c :: rest3 =>
      if isAlphaAZ c then
        match varLoop [c] rest3 with
        | some (varChars, fmt, restAfter) =>
          some (convert_scroll_placeholder nullSafe (String.mk varChars)
                  (fmt.map String.mk), restAfter)
        | none => none
      else none
    | [] => none
  else none

/-- Try the placeholder pattern anchored at the head of `cs`.  On success
returns the replacement string and the suffix following the match. -/
def matchScrollAt (cs : List Char) : Option (String × List Char) :=
  match cs with
  | c0 :: rest =>
    if c0 = '$' then
      match rest with
      | c1 :: r => if c1 = '!' then matchScrollTail true r else matchScrollTail false rest
      | [] => matchScrollTail false []
    else none
  | [] => none

/-- The left-to-right scan of `re.sub`: at each position try the pattern,
on a match emit the replacement and continue after the match, otherwise
move one character.  `fuel` bounds the number of steps; every step consumes
at least one character, so `cs.length` steps always suffice. -/
def subScrollGo : Nat → List Char → List Char
  | 0, cs => cs
  | fuel + 1, cs =>
    match matchScrollAt cs with
    | some (repl, restAfter) => repl.data ++ subScrollGo fuel restAfter
    | none =>
      match cs with
      | [] => []
      | c :: rest => c :: subScrollGo fuel rest

/-- `convert_scroll_placeholders` of `docm_support.py`. -/
def convert_scroll_placeholders (text : String) : String :=
  String.mk (subScrollGo text.data.length text.data)

/-!
## Split-run repair (`normalize_split_placeholders` of `docm_support.py`)

The source rewrites with the pattern

`(\$)(</w:t>)((?:</w:r>)?(?:<[^>]+>)*?)(<w:t[^>]*>)(!?scroll\.)`

and the replacement moves the `$` (group 1) from before `</w:t>` to just
before the `scroll.` text: `m.group(2)+m.group(3)+m.group(4)+$+m.group(5)`.
-/

/-- Match `<w:t[^>]*>` at the head of `cs`: returns the full opening tag
and the rest (the head-pattern `<w:t` is checked with `leadsWith`). -/
def matchWTTag (cs : List Char) : Option (List Char × List Char) :=
  if leadsWith "<w:t".data cs then
    let r := cs.drop 4
    let attrs := r.takeWhile (fun c => !(decide (c = '>')))
    match r.drop attrs.length with
    | '>' :: r3 => some ("<w:t".data ++ (attrs ++ ['>']), r3)
    | _ => none
  else none

/-- Match one generic tag `<[^>]+>` at the head of `cs`. -/
def matchGenTag (cs : List Char) : Option (List Char × List Char) :=
  match cs with
  | '<' :: r =>
    let body := r.takeWhile (fun c => !(decide (c = '>')))
    match body, r.drop body.length with
    | [], _ => none
    | _ :: _, '>' :: r3 => some ('<' :: (body ++ ['>']), r3)
    | _ :: _, _ => none
  | _ => none

/-- Match the trailing `!?scroll\.` (greedy on the `!`). -/
def matchScrollText (cs : List Char) : Option (List Char × List Char) :=
  if leadsWith ('!' :: "scroll.".data) cs then some ('!' :: "scroll.".data, cs.drop 8)
  else if leadsWith "scroll.".data cs then some ("scroll.".data, cs.drop 7)
  else none

/-- One attempt of the pattern tail `(<w:t[^>]*>)(!?scroll\.)` at the head
of `cs`: the full `<w:t...>` tag, the scroll text, and the rest. -/
def wtScrollAt (cs : List Char) : Option (List Char × List Char × List Char) :=
  (matchWTTag cs).bind fun p =>
    (matchScrollText p.2).map fun q => (p.1, q.1, q.2)

/-- The lazy tag loop `(?:<[^>]+>)*?` followed by `(<w:t[^>]*>)(!?scroll\.)`:
first try the `<w:t...>` run-open followed by the scroll text, then consume
one generic tag and repeat.  On success returns the consumed generic tags,
the `<w:t...>` tag, the scroll text and the rest.  `fuel` bounds the loop;
every generic tag consumes at least two characters. -/
def tagsLoop : Nat → List Char → Option (List Char × List Char × List Char × List Char)
  | 0, _ => none
  | fuel + 1, cs =>
    match wtScrollAt cs with
    | some (wt, sc, r2) => some ([], wt, sc, r2)
    | none =>
      match matchGenTag cs with
      | some (tag, r) =>
        match tagsLoop fuel r with
        | some (tags, wt, sc, r2) => some (tag ++ tags, wt, sc, r2)
        | none => none
      | none => none

/-- One attempt of the split pattern's middle and tail after the fixed
`$</w:t>` part and an already-consumed optional `</w:r>` (`mid0`): run the
lazy tag loop and, on success, build the replacement
`m.group(2)+m.group(3)+m.group(4)+$+m.group(5)`. -/
def splitAttempt (mid0 : List Char) (s : List Char) : Option (List Char × List Char) :=
  match tagsLoop (s.length + 1) s with
  | some (tags, wt, sc, rest) =>
    some ("</w:t>".data ++ mid0 ++ tags ++ wt ++ '$' :: sc, rest)
  | none => none

/-- Try the split-placeholder pattern anchored at the head of `cs`.  On
success returns the replacement text and the suffix after the match.  The
optional `(?:</w:r>)?` is greedy and backtracks to the empty alternative if
the rest of the pattern cannot match after it. -/
def matchSplitAt (cs : List Char) : Option (List Char × List Char) :=
  match cs with
  | c0 :: r =>
    if c0 = '$' then
      if leadsWith "</w:t>".data r then
        if leadsWith "</w:r>".data (r.drop 6) then
          match splitAttempt "</w:r>".data ((r.drop 6).drop 6) with
          | some x => some x
          | none => splitAttempt [] (r.drop 6)
        else splitAttempt [] (r.drop 6)
      else none
    else none
  | [] => none

/-- Left-to-right `re.sub` scan for the split-placeholder pattern. -/
def subSplitGo : Nat → List Char → List Char
  | 0, cs => cs
  | fuel + 1, cs =>
    match matchSplitAt cs with
    | some (repl, restAfter) => repl ++ subSplitGo fuel restAfter
    | none =>
      match cs with
      | [] => []
      | c :: rest => c :: subSplitGo fuel rest

/-- `normalize_split_placeholders` of `docm_support.py`. -/
def normalize_split_placeholders (xmlContent : String) : String :=
  String.mk (subSplitGo xmlContent.data.length xmlContent.data)

/-- A generic XML tag `<body>`, built from its body characters. -/
def genTag (body : List Char) : List Char :=
  '<' :: (body ++ ['>'])

/-- Concatenation of a run of generic tags given by their bodies. -/
def concatTags : List (List Char) → List Char
  | [] => []
  | b :: bs => genTag b ++ concatTags bs

/-- A tag body the split pattern's middle `(?:<[^>]+>)*?` can pass over:
nonempty and free of `>` (so `<body>` is one tag) and of `$` (so the
translation stage does not fire inside it). -/
def tagBodyOk (b : List Char) : Bool :=
  !b.isEmpty && b.all (fun c => !(decide (c = '>')) && !(decide (c = '$')))

/-- Every body in a run of intervening markup tags is acceptable. -/
def markupOk (bs : List (List Char)) : Bool :=
  bs.all tagBodyOk

/-- Attribute text of the reopening `<w:t ...>` tag: free of `>` and `$`. -/
def attrsOk (a : List Char) : Bool :=
  a.all (fun c => !(decide (c = '>')) && !(decide (c = '$')))

/-- The head of the second run's text: `scroll.` or `!scroll.`. -/
def bangScroll (bang : Bool) : List Char :=
  (if bang then ['!'] else []) ++ "scroll.".data

/-- The reopening text tag `<w:t[attrs]>`. -/
def wtOpen (attrs : List Char) : List Char :=
  "<w:t".data ++ (attrs ++ ['>'])

/-- The XML fragment in which a placeholder is split exactly after the
`$`: a text run ending in `$`, intervening markup tags, and a reopening
`<w:t ...>` whose text starts with the (optionally null-safe) `scroll.`
token. -/
def splitFragment (bang : Bool) (bs : List (List Char)) (attrs : List Char)
    (name : String) : String :=
  String.mk ("<w:t>$</w:t>".data ++ (concatTags bs
    ++ (wtOpen attrs ++ (bangScroll bang ++ (name.data ++ "</w:t>".data)))))

/-- A single text run holding the joined placeholder token. -/
def joinedRun (bang : Bool) (attrs : List Char) (name : String) : String :=
  String.mk (wtOpen attrs ++ ('$' :: (bangScroll bang ++ (name.data ++ "</w:t>".data))))

/-!
## Date filter (`filters.py`)

`date_filter` parses an ISO-8601 string and formats it with Java-style
pattern tokens via `_format_java_date` and `_format_java_token`.  The
`datetime` value is embedded as a record of numeric fields.
`datetime.fromisoformat` is embedded by `fromisoformat` below, following
the grammar of the CPython ≤ 3.10 implementation (the version family the
source's `value.replace("Z", "+00:00")` workaround is written for):
`YYYY-MM-DD`, optionally followed by one separator character (skipped,
any character) and a time `HH[:MM[:SS[.fff|.ffffff]]]`, optionally
followed by an offset `±HH:MM[:SS[.ffffff]]` split at the first `-`/`+`
of the time part, with the month, day-in-month (leap years included),
hour, minute, second and offset magnitude validated as the `datetime` and
`timezone` constructors do.  One idealisation: numeric components are
required to be digit-only, whereas CPython's `int()` would also accept a
leading space or sign inside a two-character slice.  A failure maps to
`none`, matching the `except ValueError` branch that returns the input
unchanged.  The formatter reads the parsed wall-clock fields directly and
never converts time zones, exactly like the source.
-/

/-- The fields of the parsed `datetime` that the source touches (the
formatter never reads `microsecond`; it is kept because parsing
validates it). -/
structure PyDateTime where
  year : Nat
  month : Nat
  day : Nat
  hour : Nat
  minute : Nat
  second : Nat
  microsecond : Nat
deriving DecidableEq, Repr

/-- English month name, `dt.strftime("%B")`. -/
def monthFull : Nat → String
  | 1 => "January" | 2 => "February" | 3 => "March" | 4 => "April"
  | 5 => "May" | 6 => "June" | 7 => "July" | 8 => "August"
  | 9 => "September" | 10 => "October" | 11 => "November" | 12 => "December"
  | _ => ""

/-- Abbreviated English month name, `dt.strftime("%b")`. -/
def monthAbbr : Nat → String
  | 1 => "Jan" | 2 => "Feb" | 3 => "Mar" | 4 => "Apr" | 5 => "May"
  | 6 => "Jun" | 7 => "Jul" | 8 => "Aug" | 9 => "Sep" | 10 => "Oct"
  | 11 => "Nov" | 12 => "Dec"
  | _ => ""

/-- Python `f"{n:02d}"`. -/
def pad2 (n : Nat) : String :=
  if n < 10 then "0" ++ toString n else toString n

/-- Python `f"{n:04d}"`. -/
def pad4 (n : Nat) : String :=
  if n < 10 then "000" ++ toString n
  else if n < 100 then "00" ++ toString n
  else if n < 1000 then "0" ++ toString n
  else toString n

/-- `_format_java_token` of `filters.py`: format one token (a maximal run
of a repeated pattern letter). -/
def format_java_token (dt : PyDateTime) (token : List Char) : String :=
  match token with
  | [] => String.mk token
  | ch :: _ =>
    let length := token.length
    if ch = 'y' ∨ ch = 'Y' then
      if length = 2 then pad2 (dt.year % 100) else pad4 dt.year
    else if ch = 'M' then
      if length ≥ 4 then monthFull dt.month
      else if length = 3 then monthAbbr dt.month
      else if length = 2 then pad2 dt.month
      else toString dt.month
    else if ch = 'd' ∨ ch = 'D' then
      if length = 2 then pad2 dt.day else toString dt.day
    else if ch = 'H' then
      if length = 2 then pad2 dt.hour else toString dt.hour
    else if ch = 'h' then
      let hour := if dt.hour % 12 = 0 then 12 else dt.hour % 12
      if length = 2 then pad2 hour else toString hour
    else if ch = 'm' then
      if length = 2 then pad2 dt.minute else toString dt.minute
    else if ch = 's' then
      if length = 2 then pad2 dt.second else toString dt.second
    else if ch = 'a' then
      if dt.hour < 12 then "AM" else "PM"
    else String.mk token

/-- The scan of `_format_java_date`: quote-delimited literals (with `''`
denoting one quote), maximal runs of a repeated ASCII letter as tokens,
everything else copied.  `fuel` bounds the loop by the pattern length. -/
def formatJavaGo (dt : PyDateTime) : Nat → List Char → Bool → List Char
  | 0, _, _ => []
  | _ + 1, [], _ => []
  | fuel + 1, c :: rest, inLiteral =>
    if c = sq then
      match rest with
      | c2 :: r2 =>
        if c2 = sq then sq :: formatJavaGo dt fuel r2 inLiteral
        else formatJavaGo dt fuel rest (!inLiteral)
      | [] => formatJavaGo dt fuel rest (!inLiteral)
    else if inLiteral then
      c :: formatJavaGo dt fuel rest inLiteral
    else if c.isAlpha then
      let run := rest.takeWhile (fun d => decide (d = c))
      (format_java_token dt (c :: run)).data ++
        formatJavaGo dt fuel (rest.drop run.length) inLiteral
    else
      c :: formatJavaGo dt fuel rest inLiteral

/-- `_format_java_date` of `filters.py`. -/
def format_java_date (dt : PyDateTime) (pattern : String) : String :=
  String.mk (formatJavaGo dt pattern.data.length pattern.data false)

/-- Read exactly `n` ASCII digits from the front as a number. -/
def readDigits : Nat → List Char → Option (Nat × List Char)
  | 0, cs => some (0, cs)
  | _ + 1, [] => none
  | n + 1, c :: cs =>
    if isDigit09 c then
      match readDigits n cs with
      | some (v, rest) => some ((c.toNat - 48) * 10 ^ n + v, rest)
      | none => none
    else none

/-- Python `value.replace("Z", "+00:00")` (single-character pattern, so
every `Z` is expanded independently). -/
def replaceZ : List Char → List Char
  | [] => []
  | c :: cs =>
    (if c = 'Z' then '+' :: '0' :: '0' :: ':' :: '0' :: '0' :: [] else [c]) ++ replaceZ cs

/-- Month lengths with the Gregorian leap-year rule, as the `datetime`
constructor validates them. -/
def daysInMonth (y m : Nat) : Nat :=
  if m = 2 then
    (if y % 4 = 0 ∧ (¬ y % 100 = 0 ∨ y % 400 = 0) then 29 else 28)
  else if m = 4 ∨ m = 6 ∨ m = 9 ∨ m = 11 then 30 else 31

/-- Numeric value of a digit string. -/
def digitsVal (cs : List Char) : Nat :=
  cs.foldl (fun a c => a * 10 + (c.toNat - 48)) 0

/-- Index of the first occurrence of a character. -/
def findCharIdx (t : Char) : List Char → Option Nat
  | [] => none
  | c :: cs => if c = t then some 0 else (findCharIdx t cs).map (· + 1)

/-- `_parse_hh_mm_ss_ff` of the `datetime` module: `HH`, then optionally
`:MM`, then optionally `:SS`, then — only after all three components —
optionally `.` followed by the whole remainder as exactly three or
exactly six digits.  Returns `(hour, minute, second, microsecond)`; no
range checks here (the `datetime` constructor validates). -/
def hhmmssff (t : List Char) : Option (Nat × Nat × Nat × Nat) :=
  match readDigits 2 t with
  | some (h, []) => some (h, 0, 0, 0)
  | some (h, ':' :: r1) =>
    (match readDigits 2 r1 with
     | some (m, []) => some (h, m, 0, 0)
     | some (m, ':' :: r2) =>
       (match readDigits 2 r2 with
        | some (s, []) => some (h, m, s, 0)
        | some (s, '.' :: fr) =>
          if fr.length = 3 ∧ fr.all isDigit09 = true then some (h, m, s, digitsVal fr * 1000)
          else if fr.length = 6 ∧ fr.all isDigit09 = true then some (h, m, s, digitsVal fr)
          else none
        | _ => none)
     | _ => none)
  | _ => none

/-- The offset split of `_parse_isoformat_time`: the time string is cut
at its first `-`, or, failing that, its first `+` (the date part is not
in scope here, so a `-` can only start an offset). -/
def splitTzList (t : List Char) : List Char × Option (List Char) :=
  match findCharIdx '-' t with
  | some p => (t.take p, some (t.drop (p + 1)))
  | none =>
    match findCharIdx '+' t with
    | some p => (t.take p, some (t.drop (p + 1)))
    | none => (t, none)

/-- `_parse_isoformat_time`: split off the offset, require its text to be
5, 8 or 15 characters, parse both parts with `hhmmssff`, and validate the
offset magnitude strictly below 24 hours as the `timezone` constructor
does.  The offset is then discarded: the source keeps the wall-clock
fields unchanged. -/
def parseIsoTime (t : List Char) : Option (Nat × Nat × Nat × Nat) :=
  match splitTzList t with
  | (timestr, none) => hhmmssff timestr
  | (timestr, some tzstr) =>
    if tzstr.length = 5 ∨ tzstr.length = 8 ∨ tzstr.length = 15 then
      match hhmmssff timestr, hhmmssff tzstr with
      | some res, some (th, tm, ts, tus) =>
        if th * 3600000000 + tm * 60000000 + ts * 1000000 + tus < 86400000000 then some res
        else none
      | _, _ => none
    else none

/-- `datetime.fromisoformat` (CPython ≤ 3.10 grammar): `YYYY-MM-DD`, then
either nothing, or one skipped separator character (any character) with
an optional time part after it, with the constructor's range checks. -/
def fromisoformat (cs : List Char) : Option PyDateTime :=
  match readDigits 4 cs with
  | some (y, '-' :: r1) =>
    (match readDigits 2 r1 with
     | some (mo, '-' :: r2) =>
       (match readDigits 2 r2 with
        | some (d, rest) =>
          (match
             (match rest with
              | [] => some (0, 0, 0, 0)
              | _ :: tpart => if tpart.isEmpty then some (0, 0, 0, 0) else parseIsoTime tpart) with
           | some (h, mi, s, us) =>
             if 1 ≤ y ∧ 1 ≤ mo ∧ mo ≤ 12 ∧ 1 ≤ d ∧ d ≤ daysInMonth y mo
               ∧ h ≤ 23 ∧ mi ≤ 59 ∧ s ≤ 59 then
               some ⟨y, mo, d, h, mi, s, us⟩
             else none
           | none => none)
        | _ => none)
     | _ => none)
  | _ => none

/-- The `try` block of `date_filter`: with a `T` anywhere in the value,
parse the `Z → +00:00` replacement, else parse the value directly; a
`none` is the `except ValueError` branch. -/
def parseIso (value : String) : Option PyDateTime :=
  if value.data.contains 'T' then fromisoformat (replaceZ value.data)
  else fromisoformat value.data

/-- `date_filter` of `filters.py`. -/
def date_filter (value : String) (format : String) : String :=
  if value = "" then ""
  else
    match parseIso value with
    | none => value
    | some dt => format_java_date dt format

/-- `default_filter` of `filters.py` (`None` is `none`, absent here means
the empty-string check). -/
def default_filter (value : Option String) (dflt : String) : String :=
  match value with
  | none => dflt
  | some v => if v = "" then dflt else v

/-!
## Tree-walker slice (`markdown_to_word.py`)

The inline-content walker `_add_inline_content`, the heading branch of
`_process_tag`, `_strip_heading_prefix`, `_add_status_badge` and
`_add_run_shading` are embedded.  Inline HTML nodes are modelled by the
mutually inductive `Inline`/`InlineList`: the constructors that the source
flattens immediately through `get_text()` (`strong`, `em`, `code`, `a`,
`del`) carry that flattened text, while `span` and the unrecognised-tag
fallback keep their children because the source recurses into them with
the shared paragraph and strip state.  The `img` branch (image embedding)
is outside the claims and is not modelled.  An emitted run is a record of
the attributes the source sets; a hyperlink is a run with the `hyperlink`
field set, standing for the native hyperlink element of
`_add_hyperlink`.
-/

/-- An emitted run with the attributes the walker sets. -/
structure Run where
  text : String
  bold : Bool := false
  italic : Bool := false
  strike : Bool := false
  fontName : Option String := none
  fontSizePt : Option Nat := none
  colorRGB : Option (Nat × Nat × Nat) := none
  highlight : Option String := none
  hyperlink : Option String := none
deriving DecidableEq, Repr, Inhabited

/-- A run with only text set. -/
def plainRun (t : String) : Run := { text := t }

/-- Python `str.strip()` over ASCII whitespace. -/
def pyStrip (s : String) : String :=
  String.mk (((s.data.dropWhile isPySpace).reverse.dropWhile isPySpace).reverse)

/-- Python `str.replace(pat, "")`: delete every occurrence of `pat`,
scanning left to right.  `fuel` bounds the scan by the input length. -/
def removeAllSub (pat : List Char) : Nat → List Char → List Char
  | 0, cs => cs
  | _ + 1, [] => []
  | fuel + 1, c :: cs =>
    if leadsWith pat (c :: cs) then removeAllSub pat fuel ((c :: cs).drop pat.length)
    else c :: removeAllSub pat fuel cs

/-- Python `s.replace(pat, "")` on strings. -/
def pyReplaceDrop (pat : String) (s : String) : String :=
  String.mk (removeAllSub pat.data s.data.length s.data)

/-- `STATUS_COLORS` of `markdown_to_word.py` (RGB triples). -/
def STATUS_COLORS : List (String × (Nat × Nat × Nat)) :=
  [("green", (0, 128, 0)), ("yellow", (204, 153, 0)), ("red", (204, 0, 0)),
   ("blue", (0, 102, 204)), ("grey", (128, 128, 128)),
   ("gray", (128, 128, 128)), ("purple", (128, 0, 128))]

/-- The `highlight_map` of `_add_run_shading`. -/
def highlightMap : List (String × String) :=
  [("green", "green"), ("yellow", "yellow"), ("red", "red"),
   ("blue", "blue"), ("grey", "lightGray"), ("gray", "lightGray"),
   ("purple", "darkMagenta")]

/-- `_add_run_shading`: highlight value chosen for a colour name
(`highlight_map.get(color_name, "darkGray")`; `none` models a missing
`status-<color>` class, for which the Python `None` key also falls back to
the default). -/
def runShadingHighlight (colorName : Option String) : String :=
  match colorName with
  | some c => (highlightMap.lookup c).getD "darkGray"
  | none => "darkGray"

/-- The colour extraction of `_add_status_badge`: first class that starts
with `status-` and differs from `status`, with every occurrence of
`status-` deleted (`cls.replace("status-", "")`). -/
def statusColorName (classes : List String) : Option String :=
  match classes.find? (fun cls => leadsWith "status-".data cls.data && cls != "status") with
  | some cls => some (pyReplaceDrop "status-" cls)
  | none => none

/-- `_add_status_badge`: the three runs the source appends for one badge
(the leading pad, the bold badge text, the trailing pad).  The local
`color = STATUS_COLORS.get(...)` of the source is never read and is not
modelled. -/
def statusBadgeRuns (classes : List String) (content : String) : List Run :=
  let text := pyStrip content
  let colorName := statusColorName classes
  let fg : Nat × Nat × Nat :=
    if colorName = some "gray" ∨ colorName = some "grey" ∨ colorName = some "yellow"
    then (0, 0, 0) else (255, 255, 255)
  [plainRun " ",
   { text := " " ++ text ++ " ", bold := true, fontSizePt := some 9,
     colorRGB := some fg, highlight := some (runShadingHighlight colorName) },
   plainRun " "]

mutual
/-- Inline HTML node as dispatched by `_add_inline_content`. -/
inductive Inline where
  | text : String → Inline
  | strong : String → Inline
  | em : String → Inline
  | codeSpan : String → Inline
  | link : String → String → Inline
  | strikeDel : String → Inline
  | br : Inline
  | span : List String → InlineList → Inline
  | other : InlineList → Inline
/-- A list of inline nodes (children of a tag). -/
inductive InlineList where
  | nil : InlineList
  | cons : Inline → InlineList → InlineList
end

mutual
/-- `get_text()` of one node: the concatenated text content. -/
def getTextOne : Inline → String
  | .text s => s
  | .strong s => s
  | .em s => s
  | .codeSpan s => s
  | .link _ s => s
  | .strikeDel s => s
  | .br => ""
  | .span _ ch => getTextList ch
  | .other ch => getTextList ch
/-- `get_text()` of a child list. -/
def getTextList : InlineList → String
  | .nil => ""
  | .cons i rest => getTextOne i ++ getTextList rest
end

/-- The numeric-prefix loop for `^\s*\d+(?:\.\d+)*\.\s+` after the first
digit group: at each dot, a following whitespace run ends the match
(`\.\s+`, the run taken maximally) and a following digit group continues
the star.  Failure cannot be repaired by backtracking, so the scan is
deterministic. -/
def numPrefixLoop : Nat → Nat → List Char → Option Nat
  | 0, _, _ => none
  | _ + 1, _, [] => none
  | fuel + 1, acc, c :: r2 =>
    if c = '.' then
      let ws := r2.takeWhile isPySpace
      match ws with
      | _ :: _ => some (acc + 1 + ws.length)
      | [] =>
        let ds := r2.takeWhile isDigit09
        match ds with
        | [] => none
        | _ :: _ => numPrefixLoop fuel (acc + 1 + ds.length) (r2.drop ds.length)
    else none

/-- Length of the leading match of `^\s*\d+(?:\.\d+)*\.\s+`, if any. -/
def stripNumberLen (cs : List Char) : Option Nat :=
  let ws := cs.takeWhile isPySpace
  let cs1 := cs.drop ws.length
  let ds := cs1.takeWhile isDigit09
  match ds with
  | [] => none
  | _ :: _ => numPrefixLoop cs.length (ws.length + ds.length) (cs1.drop ds.length)

/-- `_strip_heading_prefix` of `markdown_to_word.py` (named for its
effect here): remove the leading numeric prefix once and report whether
the text changed (`stripped != text` in the source — equivalent to "the
pattern matched" because a match removes a nonempty prefix). -/
def stripLeadingNumber (text : String) : String × Bool :=
  let stripped :=
    match stripNumberLen text.data with
    | some n => String.mk (text.data.drop n)
    | none => text
  (stripped, stripped != text)

/-- One strip attempt of `_add_inline_content`: when stripping is enabled
and not yet done, strip and mark done on success. -/
def stripStep (strip done : Bool) (s : String) : String × Bool :=
  if strip && !done then
    let (t, m) := stripLeadingNumber s
    (t, done || m)
  else (s, done)

mutual
/-- The dispatch of `_add_inline_content` on one child node, threading
the `strip_state["done"]` flag; returns the emitted runs and the updated
flag. -/
def walkOne (strip : Bool) : Inline → Bool → List Run × Bool
  | .text s, done =>
    let (t, d2) := stripStep strip done s
    ((if pyStrip t = "" then [] else [plainRun t]), d2)
  | .strong s, done =>
    let (t, d2) := stripStep strip done s
    ([{ text := t, bold := true }], d2)
  | .em s, done =>
    let (t, d2) := stripStep strip done s
    ([{ text := t, italic := true }], d2)
  | .codeSpan s, done =>
    let (t, d2) := stripStep strip done s
    ([{ text := t, fontName := some "Courier New", fontSizePt := some 10 }], d2)
  | .link href s, done =>
    let (t, d2) := stripStep strip done s
    ([{ text := t, hyperlink := some href }], d2)
  | .strikeDel s, done =>
    let (t, d2) := stripStep strip done s
    ([{ text := t, strike := true }], d2)
  | .br, done => ([plainRun "\n"], done)
  | .span classes ch, done =>
    if "status" ∈ classes then (statusBadgeRuns classes (getTextList ch), done)
    else walkList strip ch done
  | .other ch, done => walkList strip ch done
/-- The child loop of `_add_inline_content`. -/
def walkList (strip : Bool) : InlineList → Bool → List Run × Bool
  | .nil, done => ([], done)
  | .cons i rest, done =>
    let (rs, d2) := walkOne strip i done
    let (rs2, d3) := walkList strip rest d2
    (rs ++ rs2, d3)
end

/-- An emitted paragraph: its style and runs. -/
structure Paragraph where
  style : Option String
  runs : List Run
deriving DecidableEq, Repr

/-- The heading branch of `_process_tag`: a `Heading <level>` paragraph
whose inline content is walked with stripping enabled exactly when
`heading_numbered.get(level, False)` holds. -/
def processHeading (headingNumbered : Nat → Bool) (level : Nat)
    (content : InlineList) : Paragraph :=
  { style := some ("Heading " ++ toString level),
    runs := (walkList (headingNumbered level) content false).1 }

/-!
Reference description used to state claim C7: the heading's inline
content, flattened to the sequence of leaf segments the walker visits
(non-status spans and unrecognised tags splice their children in place),
with the numeric prefix stripped exactly at the first text segment where
it matches.
-/

/-- A leaf segment of the flattened inline content. -/
inductive Leaf where
  | text : String → Leaf
  | strong : String → Leaf
  | em : String → Leaf
  | codeSpan : String → Leaf
  | link : String → String → Leaf
  | strikeDel : String → Leaf
  | br : Leaf
  | badge : List String → String → Leaf
deriving DecidableEq, Repr

mutual
/-- Flatten one inline node to its leaf segments. -/
def flattenOne : Inline → List Leaf
  | .text s => [.text s]
  | .strong s => [.strong s]
  | .em s => [.em s]
  | .codeSpan s => [.codeSpan s]
  | .link href s => [.link href s]
  | .strikeDel s => [.strikeDel s]
  | .br => [.br]
  | .span classes ch =>
    if "status" ∈ classes then [.badge classes (getTextList ch)] else flattenList ch
  | .other ch => flattenList ch
/-- Flatten a child list to its leaf segments. -/
def flattenList : InlineList → List Leaf
  | .nil => []
  | .cons i rest => flattenOne i ++ flattenList rest
end

/-- Emit one leaf using `t` as its (possibly stripped) text. -/
def emitLeaf (l : Leaf) (t : String) : List Run :=
  match l with
  | .text _ => if pyStrip t = "" then [] else [plainRun t]
  | .strong _ => [{ text := t, bold := true }]
  | .em _ => [{ text := t, italic := true }]
  | .codeSpan _ => [{ text := t, fontName := some "Courier New", fontSizePt := some 10 }]
  | .link href _ => [{ text := t, hyperlink := some href }]
  | .strikeDel _ => [{ text := t, strike := true }]
  | .br => [plainRun "\n"]
  | .badge classes content => statusBadgeRuns classes content

/-- The text a leaf submits to a strip attempt, when it attempts one. -/
def leafText : Leaf → Option String
  | .text s => some s
  | .strong s => some s
  | .em s => some s
  | .codeSpan s => some s
  | .link _ s => some s
  | .strikeDel s => some s
  | .br => none
  | .badge _ _ => none

/-- Does the numeric prefix match this leaf's text? -/
def leafMatches (l : Leaf) : Bool :=
  match leafText l with
  | some s => (stripLeadingNumber s).2
  | none => false

/-- Emit a leaf without stripping. -/
def plainLeaf (l : Leaf) : List Run :=
  emitLeaf l ((leafText l).getD "")

/-- Emit a leaf list without stripping. -/
def plainLeaves (ls : List Leaf) : List Run :=
  ls.flatMap plainLeaf

/-- Specification emission for a numbered heading: every leaf is emitted
unchanged except the first one whose text matches the numeric prefix,
which is emitted with the prefix stripped; everything after it is
unchanged. -/
def specEmit : List Leaf → List Run
  | [] => []
  | l :: rest =>
    if leafMatches l then
      emitLeaf l (stripLeadingNumber ((leafText l).getD "")).1 ++ plainLeaves rest
    else plainLeaf l ++ specEmit rest

/-- The walker on the flattened leaf sequence, threading the same state. -/
def leafWalk (strip : Bool) : List Leaf → Bool → List Run × Bool
  | [], done => ([], done)
  | l :: rest, done =>
    let (rs, d2) :=
      match leafText l with
      | some s =>
        let (t, d2) := stripStep strip done s
        (emitLeaf l t, d2)
      | none => (emitLeaf l "", done)
    let (rs2, d3) := leafWalk strip rest d2
    (rs ++ rs2, d3)

/-!
## Scoped converter (`DocmConverter` of `docm_support.py`)

The context manager is embedded as a state machine.  Filesystem effects
are abstracted: whether the original file has Scroll placeholders is an
oracle bit of the environment (`has_scroll_placeholders` reads the zip
contents), and the two conversion routines are represented by the
temporary directory and converted path they would produce
(`tempfile.mkdtemp` plus the written copy; `temp_dir` is the parent
directory of the converted path, as in the source).  The guaranteed-run
of `__exit__` on both normal and exceptional exit is the Python `with`
statement's semantics, modelled by `withDocmConverter` running the body
to an `Except` outcome and always performing the release step.
-/

/-- ASCII `str.lower()`. -/
def pyLower (s : String) : String :=
  String.mk (s.data.map (fun c =>
    if isAlphaAZ c && decide ('A' ≤ c) && decide (c ≤ 'Z') then Char.ofNat (c.toNat + 32) else c))

/-- `str(path).lower().endswith('.docm')` — `is_docm_file` of
`docm_support.py`. -/
def is_docm_file (path : String) : Bool :=
  leadsWith ".docm".data.reverse (pyLower path).data.reverse

/-- The converter's fields (`original_path`, `converted_path`,
`temp_dir`, `convert_placeholders`). -/
structure DocmConverter where
  originalPath : String
  convertedPath : Option String := none
  tempDir : Option String := none
  convertPlaceholders : Bool := true
deriving DecidableEq, Repr

/-- The abstracted environment: the placeholder-detection oracle and the
temporary artefacts each conversion routine would create. -/
structure ConvEnv where
  hasScroll : Bool
  docmTempDir : String
  docmConverted : String
  docxTempDir : String
  docxConverted : String

/-- `DocmConverter.__enter__`: returns the updated state and the path
handed to the body. -/
def docmEnter (env : ConvEnv) (c : DocmConverter) : DocmConverter × String :=
  if is_docm_file c.originalPath then
    ({ c with convertedPath := some env.docmConverted, tempDir := some env.docmTempDir },
     env.docmConverted)
  else if c.convertPlaceholders && env.hasScroll then
    ({ c with convertedPath := some env.docxConverted, tempDir := some env.docxTempDir },
     env.docxConverted)
  else (c, c.originalPath)

/-- `DocmConverter.__exit__`: the directory removed (best-effort,
`ignore_errors=True`), if any.  It returns `False`, so the body's
exception, if one was raised, propagates. -/
def docmExit (c : DocmConverter) : Option String :=
  c.tempDir

/-- The `with DocmConverter(...) as path:` scope: acquire, run the body to
its outcome (normal value or exception), always release.  Returns the
body's outcome and the directory deleted on release. -/
def withDocmConverter (env : ConvEnv) (path : String) (convertPlaceholders : Bool)
    (body : String → Except String Unit) : Except String Unit × Option String :=
  let (st, p) := docmEnter env { originalPath := path, convertPlaceholders := convertPlaceholders }
  (body p, docmExit st)

/-!
## Context builder slice (`build_context` of `context.py`)

Only the author/modifier variables the claim C10 is about are embedded.
`page_data.get("author", {})` and `page_data.get("modifier", author_info)`
become `Option` fields with the same defaults, and `info.get(key, "")`
becomes `Option.getD ""`.
-/

/-- A person record: `displayName` and `email` keys, possibly absent. -/
structure PersonInfo where
  displayName : Option String := none
  email : Option String := none
deriving DecidableEq, Repr

/-- The slice of the input page data that decides the four
author/modifier context variables. -/
structure PageData where
  author : Option PersonInfo := none
  modifier : Option PersonInfo := none
deriving DecidableEq, Repr

/-- The four author/modifier context variables. -/
structure AuthorContext where
  author : String
  authorEmail : String
  modifier : String
  modifierEmail : String
deriving DecidableEq, Repr

/-- The author/modifier part of `build_context`. -/
def build_context_authors (pd : PageData) : AuthorContext :=
  let authorInfo := pd.author.getD {}
  let modifierInfo := pd.modifier.getD authorInfo
  { author := authorInfo.displayName.getD ""
    authorEmail := authorInfo.email.getD ""
    modifier := modifierInfo.displayName.getD ""
    modifierEmail := modifierInfo.email.getD "" }

/-!
## CLI success path (`cli.py` and `docx_renderer.py`)

`render_template` ends with `return output_path, has_toc` — a pair.  The
caller in `cli.py` binds that pair to a single variable and prints
`{"success": True, "output": str(output_path)}`, so the `output` field
holds the Python `str()` of the tuple `(PosixPath('<path>'), <bool>)`,
not the path.  `pyStrPathBoolPair` embeds Python's rendering of that
tuple (`str` of a tuple uses the `repr` of its elements).
-/

/-- The value `render_template` returns: the output path and the TOC
flag. -/
def render_template_result (outputPath : String) (hasToc : Bool) : String × Bool :=
  (outputPath, hasToc)

/-- Python `str((PosixPath(p), b))`. -/
def pyStrPathBoolPair (p : String × Bool) : String :=
  "(PosixPath(" ++ sqs ++ p.1 ++ sqs ++ "), " ++ (if p.2 then "True" else "False") ++ ")"

/-- The string `cli.main` stores in the `output` field of its success
JSON: `str(output_path)` where `output_path` is the pair returned by
`render_template`. -/
def cliSuccessOutputField (outputPath : String) (hasToc : Bool) : String :=
  pyStrPathBoolPair (render_template_result outputPath hasToc)

/-- The success JSON line `cli.main` prints
(`json.dumps({"success": True, "output": str(output_path)})`, with
`json.dumps` default separators and no characters needing escapes). -/
def cliSuccessJson (outputPath : String) (hasToc : Bool) : String :=
  "\x7b\"success\": true, \"output\": \"" ++ cliSuccessOutputField outputPath hasToc ++ "\"\x7d"

/-!
## Auxiliary predicates used in theorem statements
-/

/-- A character sequence that group 2 of the placeholder pattern can
match in full: nonempty, starting with a letter, all characters in
`[a-zA-Z0-9.]`. -/
def validVarChars : List Char → Bool
  | [] => false
  | c :: cs => isAlphaAZ c && (c :: cs).all isScrollVarChar

/-- A suffix at which the lazy variable loop stops with no date clause:
the lookahead holds and the optional date clause cannot start (the head,
if any, is not a word character, not `.` and not `(`). -/
def junctionOk : List Char → Bool
  | [] => true
  | c :: _ => !(isWordChar c || decide (c = '.') || decide (c = '('))

/-!
## Generic lemmas about the scanners
-/

theorem leadsWith_self_append (p q : List Char) : leadsWith p (p ++ q) = true := by
  induction p with
  | nil => rfl
  | cons c cs ih => simp [leadsWith, ih]

theorem subScrollGo_nil (fuel : Nat) : subScrollGo fuel [] = [] := by
  cases fuel <;> rfl

theorem subSplitGo_nil (fuel : Nat) : subSplitGo fuel [] = [] := by
  cases fuel <;> rfl

theorem matchScrollAt_cons_ne (c : Char) (cs : List Char) (h : ¬ c = '$') :
    matchScrollAt (c :: cs) = none := by
  simp [matchScrollAt, h]

theorem matchSplitAt_cons_ne (c : Char) (cs : List Char) (h : ¬ c = '$') :
    matchSplitAt (c :: cs) = none := by
  simp [matchSplitAt, h]

theorem subScrollGo_append_nodollar (p : List Char) :
    ∀ (q : List Char) (fuel : Nat), (∀ c ∈ p, ¬ c = '$') →
      subScrollGo (p.length + fuel) (p ++ q) = p ++ subScrollGo fuel q := by
  induction p with
  | nil => intro q fuel _; simp
  | cons c p ih =>
    intro q fuel h
    have hc : ¬ c = '$' := h c (by simp)
    have hlen : (c :: p).length + fuel = (p.length + fuel) + 1 := by
      simp [Nat.succ_add]
    rw [hlen]
    show subScrollGo ((p.length + fuel) + 1) (c :: (p ++ q)) = _
    rw [subScrollGo, matchScrollAt_cons_ne c _ hc]
    simp [ih q fuel (fun d hd => h d (List.mem_cons_of_mem c hd))]

theorem subSplitGo_append_nodollar (p : List Char) :
    ∀ (q : List Char) (fuel : Nat), (∀ c ∈ p, ¬ c = '$') →
      subSplitGo (p.length + fuel) (p ++ q) = p ++ subSplitGo fuel q := by
  induction p with
  | nil => intro q fuel _; simp
  | cons c p ih =>
    intro q fuel h
    have hc : ¬ c = '$' := h c (by simp)
    have hlen : (c :: p).length + fuel = (p.length + fuel) + 1 := by
      simp [Nat.succ_add]
    rw [hlen]
    show subSplitGo ((p.length + fuel) + 1) (c :: (p ++ q)) = _
    rw [subSplitGo, matchSplitAt_cons_ne c _ hc]
    simp [ih q fuel (fun d hd => h d (List.mem_cons_of_mem c hd))]

theorem containsSub_cons_false {p : List Char} {c : Char} {cs : List Char}
    (h : containsSub p (c :: cs) = false) :
    leadsWith p (c :: cs) = false ∧ containsSub p cs = false := by
  simpa [containsSub] using h

theorem matchScrollAt_eq_none {cs : List Char}
    (h1 : leadsWith "$scroll.".data cs = false)
    (h2 : leadsWith "$!scroll.".data cs = false) :
    matchScrollAt cs = none := by
  match cs with
  | [] => rfl
  | c0 :: rest =>
    by_cases hc : c0 = '$'
    · subst hc
      match rest with
      | [] => rfl
      | c1 :: r =>
        by_cases hb : c1 = '!'
        · subst hb
          have hr : leadsWith "scroll.".data r = false := by
            have hd : "$!scroll.".data = '$' :: '!' :: "scroll.".data := rfl
            rw [hd] at h2
            simpa [leadsWith] using h2
          simp [matchScrollAt, matchScrollTail, hr]
        · have hr : leadsWith "scroll.".data (c1 :: r) = false := by
            have hd : "$scroll.".data = '$' :: "scroll.".data := rfl
            rw [hd] at h1
            simpa [leadsWith] using h1
          simp [matchScrollAt, matchScrollTail, hb, hr]
    · exact matchScrollAt_cons_ne c0 rest hc

theorem subScrollGo_id_of_no_occurrence :
    ∀ (cs : List Char), containsSub "$scroll.".data cs = false →
      containsSub "$!scroll.".data cs = false →
      ∀ (k : Nat), subScrollGo (cs.length + k) cs = cs := by
  intro cs
  induction cs with
  | nil => intro _ _ k; exact subScrollGo_nil _
  | cons c rest ih =>
    intro h1 h2 k
    obtain ⟨h1a, h1b⟩ := containsSub_cons_false h1
    obtain ⟨h2a, h2b⟩ := containsSub_cons_false h2
    have hm : matchScrollAt (c :: rest) = none := matchScrollAt_eq_none h1a h2a
    have hlen : (c :: rest).length + k = (rest.length + k) + 1 := by
      simp [Nat.succ_add]
    rw [hlen]
    show subScrollGo ((rest.length + k) + 1) (c :: rest) = c :: rest
    rw [subScrollGo, hm]
    simp [ih h1b h2b k]

/-- C5: dialect translation is the identity on already-native text —
any text with no occurrence of the legacy openers `$scroll.` or
`$!scroll.` (in particular native `{{ ... }}` syntax) is returned
unchanged by `convert_scroll_placeholders`. -/
theorem dialect_translation_native_identity (t : String)
    (h1 : containsSub "$scroll.".data t.data = false)
    (h2 : containsSub "$!scroll.".data t.data = false) :
    convert_scroll_placeholders t = t := by
  have := subScrollGo_id_of_no_occurrence t.data h1 h2 0
  rw [Nat.add_zero] at this
  show String.mk (subScrollGo t.data.length t.data) = t
  rw [this]

/-- C5 witness: the already-native text `{{ title }}` is unchanged. -/
theorem dialect_translation_native_identity_witness :
    containsSub "$scroll.".data "\x7b\x7b title \x7d\x7d".data = false
    ∧ containsSub "$!scroll.".data "\x7b\x7b title \x7d\x7d".data = false
    ∧ convert_scroll_placeholders "\x7b\x7b title \x7d\x7d" = "\x7b\x7b title \x7d\x7d" :=
  ⟨by decide, by decide,
   dialect_translation_native_identity "\x7b\x7b title \x7d\x7d" (by decide) (by decide)⟩

theorem scrollVarChar_cases {v : Char} (hv : isScrollVarChar v = true) :
    isAlphaAZ v = true ∨ isDigit09 v = true ∨ v = '.' := by
  simpa [isScrollVarChar, decide_eq_true_eq, Bool.or_eq_true, or_assoc] using hv

theorem scrollVarChar_ne_paren {v : Char} (hv : isScrollVarChar v = true) : ¬ v = '(' := by
  intro h
  subst h
  exact absurd hv (by decide)

theorem scrollVarChar_ne_dollar {v : Char} (hv : isScrollVarChar v = true) : ¬ v = '$' := by
  intro h
  subst h
  exact absurd hv (by decide)

theorem boundaryOk_cons_varChar {v : Char} (hv : isScrollVarChar v = true)
    (r : List Char) : boundaryOk (v :: r) = false := by
  have h := scrollVarChar_cases hv
  rcases h with h | h | h
  · simp [boundaryOk, isWordChar, h]
  · simp [boundaryOk, isWordChar, h]
  · simp [boundaryOk, h]

theorem dateClauseCore_ne_paren {c : Char} (h : ¬ c = '(') (r : List Char) :
    dateClauseCore (c :: r) = none := by
  cases r with
  | nil => rfl
  | cons c2 r2 => simp [dateClauseCore, h]

theorem junctionOk_cons {c : Char} {r : List Char} (hj : junctionOk (c :: r) = true) :
    isWordChar c = false ∧ ¬ c = '.' ∧ ¬ c = '(' := by
  simpa [junctionOk, not_or, Bool.not_eq_true', Bool.or_eq_true, decide_eq_true_eq,
    and_assoc] using hj

theorem parseDateClause_junction {rest : List Char} (hj : junctionOk rest = true) :
    parseDateClause rest = none := by
  cases rest with
  | nil => rfl
  | cons c r =>
    obtain ⟨_, hdot, hparen⟩ := junctionOk_cons hj
    rw [parseDateClause, if_neg hdot]
    exact dateClauseCore_ne_paren hparen r

theorem boundaryOk_junction {rest : List Char} (hj : junctionOk rest = true) :
    boundaryOk rest = true := by
  cases rest with
  | nil => rfl
  | cons c r =>
    obtain ⟨hw, hdot, _⟩ := junctionOk_cons hj
    simp [boundaryOk, hw, hdot]

theorem parseDateClause_varChar_cons {v : Char} (hv : isScrollVarChar v = true)
    {tail : List Char}
    (hnext : tail = [] ∨ ∃ w tl, tail = w :: tl ∧ ¬ w = '(') :
    parseDateClause (v :: tail) = none := by
  by_cases hdot : v = '.'
  · rw [parseDateClause, if_pos hdot]
    rcases hnext with h | ⟨w, tl, h, hw⟩
    · subst h; rfl
    · subst h; exact dateClauseCore_ne_paren hw tl
  · rw [parseDateClause, if_neg hdot]
    exact dateClauseCore_ne_paren (scrollVarChar_ne_paren hv) tail

theorem varLoop_consume (vs : List Char) :
    ∀ (acc rest : List Char), vs.all isScrollVarChar = true → junctionOk rest = true →
      varLoop acc (vs ++ rest) = some (acc ++ vs, none, rest) := by
  induction vs with
  | nil =>
    intro acc rest _ hj
    cases rest with
    | nil => simp [varLoop]
    | cons c r =>
      simp [varLoop, parseDateClause_junction hj, boundaryOk_junction hj]
  | cons v vs ih =>
    intro acc rest hall hj
    rw [List.all_cons, Bool.and_eq_true] at hall
    have hnext : vs ++ rest = [] ∨ ∃ w tl, vs ++ rest = w :: tl ∧ ¬ w = '(' := by
      cases hvs : vs with
      | nil =>
        cases hrest : rest with
        | nil => exact Or.inl rfl
        | cons c r =>
          refine Or.inr ⟨c, r, by simp, ?_⟩
          rw [hrest] at hj
          exact (junctionOk_cons hj).2.2
      | cons w ws =>
        refine Or.inr ⟨w, ws ++ rest, by simp, ?_⟩
        have hw : isScrollVarChar w = true := by
          rw [hvs, List.all_cons, Bool.and_eq_true] at hall
          exact hall.2.1
        exact scrollVarChar_ne_paren hw
    have hpd : parseDateClause (v :: (vs ++ rest)) = none :=
      parseDateClause_varChar_cons hall.1 hnext
    have hb : boundaryOk (v :: (vs ++ rest)) = false := boundaryOk_cons_varChar hall.1 _
    show varLoop acc (v :: (vs ++ rest)) = _
    rw [varLoop, hpd, hb]
    simp only [Bool.false_eq_true, if_false, hall.1, if_true]
    rw [ih (acc ++ [v]) rest hall.2 hj]
    simp

theorem takeWhile_until_quote (fmt : List Char) (h : ∀ ch ∈ fmt, ¬ ch = '"')
    (r : List Char) :
    (fmt ++ '"' :: r).takeWhile (fun c => !(decide (c = '"'))) = fmt := by
  induction fmt with
  | nil => simp [List.takeWhile]
  | cons c cs ih =>
    have hc : ¬ c = '"' := h c (by simp)
    simp only [List.cons_append, List.takeWhile_cons]
    rw [if_pos (by simp [hc])]
    rw [ih (fun d hd => h d (List.mem_cons_of_mem c hd))]

theorem dateClauseCore_match (fmt rest : List Char) (hf : fmt ≠ [])
    (hq : ∀ ch ∈ fmt, ¬ ch = '"') :
    dateClauseCore ('(' :: '"' :: (fmt ++ '"' :: ')' :: rest)) = some (fmt, rest) := by
  cases fmt with
  | nil => exact absurd rfl hf
  | cons c cs =>
    rw [dateClauseCore]
    rw [if_pos ⟨rfl, rfl⟩]
    have ht := takeWhile_until_quote (c :: cs) hq (')' :: rest)
    have hdrop : ((c :: cs) ++ '"' :: ')' :: rest).drop (c :: cs).length
        = '"' :: ')' :: rest := List.drop_left (c :: cs) ('"' :: ')' :: rest)
    simp only [ht, hdrop]
    simp

theorem varLoop_consume_date (vs : List Char) :
    ∀ (acc fmt rest : List Char), vs.all isScrollVarChar = true →
      fmt ≠ [] → (∀ ch ∈ fmt, ¬ ch = '"') → boundaryOk rest = true →
      varLoop acc (vs ++ ('.' :: '(' :: '"' :: (fmt ++ '"' :: ')' :: rest)))
        = some (acc ++ vs, some fmt, rest) := by
  induction vs with
  | nil =>
    intro acc fmt rest _ hf hq hb
    have hpd : parseDateClause ('.' :: '(' :: '"' :: (fmt ++ '"' :: ')' :: rest))
        = some (fmt, rest) := by
      rw [parseDateClause, if_pos rfl]
      exact dateClauseCore_match fmt rest hf hq
    show varLoop acc ('.' :: ('(' :: '"' :: (fmt ++ '"' :: ')' :: rest))) = _
    rw [varLoop, hpd]
    simp [hb]
  | cons v vs ih =>
    intro acc fmt rest hall hf hq hb
    rw [List.all_cons, Bool.and_eq_true] at hall
    have hnext : vs ++ ('.' :: '(' :: '"' :: (fmt ++ '"' :: ')' :: rest)) = []
        ∨ ∃ w tl, vs ++ ('.' :: '(' :: '"' :: (fmt ++ '"' :: ')' :: rest)) = w :: tl
            ∧ ¬ w = '(' := by
      cases hvs : vs with
      | nil =>
        refine Or.inr ⟨'.', '(' :: '"' :: (fmt ++ '"' :: ')' :: rest), rfl, by decide⟩
      | cons w ws =>
        refine Or.inr ⟨w, ws ++ ('.' :: '(' :: '"' :: (fmt ++ '"' :: ')' :: rest)), by simp [hvs], ?_⟩
        have hw : isScrollVarChar w = true := by
          rw [hvs, List.all_cons, Bool.and_eq_true] at hall
          exact hall.2.1
        exact scrollVarChar_ne_paren hw
    have hpd : parseDateClause (v :: (vs ++ ('.' :: '(' :: '"' :: (fmt ++ '"' :: ')' :: rest))))
        = none := parseDateClause_varChar_cons hall.1 hnext
    have hbv : boundaryOk (v :: (vs ++ ('.' :: '(' :: '"' :: (fmt ++ '"' :: ')' :: rest))))
        = false := boundaryOk_cons_varChar hall.1 _
    show varLoop acc (v :: (vs ++ ('.' :: '(' :: '"' :: (fmt ++ '"' :: ')' :: rest)))) = _
    rw [varLoop, hpd, hbv]
    simp only [Bool.false_eq_true, if_false, hall.1, if_true]
    rw [ih (acc ++ [v]) fmt rest hall.2 hf hq hb]
    simp

theorem matchScrollTail_result (nullSafe : Bool) (c : Char) (vs rest : List Char)
    (hc : isAlphaAZ c = true) (hall : vs.all isScrollVarChar = true)
    (hj : junctionOk rest = true) :
    matchScrollTail nullSafe ("scroll.".data ++ (c :: (vs ++ rest)))
      = some (convert_scroll_placeholder nullSafe (String.mk (c :: vs)) none, rest) := by
  rw [matchScrollTail]
  rw [if_pos (leadsWith_self_append "scroll.".data (c :: (vs ++ rest)))]
  have hdrop : ("scroll.".data ++ (c :: (vs ++ rest))).drop 7 = c :: (vs ++ rest) :=
    List.drop_left "scroll.".data (c :: (vs ++ rest))
  rw [hdrop]
  simp only [hc, if_true, varLoop_consume vs [c] rest hall hj]
  simp

theorem matchScrollTail_result_date (nullSafe : Bool) (c : Char)
    (vs fmt rest : List Char) (hc : isAlphaAZ c = true)
    (hall : vs.all isScrollVarChar = true) (hf : fmt ≠ [])
    (hq : ∀ ch ∈ fmt, ¬ ch = '"') (hb : boundaryOk rest = true) :
    matchScrollTail nullSafe
        ("scroll.".data ++ (c :: (vs ++ ('.' :: '(' :: '"' :: (fmt ++ '"' :: ')' :: rest)))))
      = some (convert_scroll_placeholder nullSafe (String.mk (c :: vs))
                (some (String.mk fmt)), rest) := by
  rw [matchScrollTail]
  rw [if_pos (leadsWith_self_append "scroll.".data _)]
  have hdrop : ("scroll.".data
      ++ (c :: (vs ++ ('.' :: '(' :: '"' :: (fmt ++ '"' :: ')' :: rest))))).drop 7
      = c :: (vs ++ ('.' :: '(' :: '"' :: (fmt ++ '"' :: ')' :: rest))) :=
    List.drop_left "scroll.".data _
  rw [hdrop]
  simp only [hc, if_true, varLoop_consume_date vs [c] fmt rest hall hf hq hb]
  simp

/-- C3: for every dotted name matching the variable pattern,
`convert_scroll_placeholders` rewrites `$scroll.<name>` to
`{{ <mapped> }}` when the name is in `SCROLL_MAPPINGS` and to
`{{ <name> }}` otherwise (`scrollLookup` is exactly
`SCROLL_MAPPINGS.get(name, name)`). -/
theorem scroll_mapping_translation (name : String)
    (h : validVarChars name.data = true) :
    convert_scroll_placeholders ("$scroll." ++ name)
      = "\x7b\x7b " ++ scrollLookup name ++ " \x7d\x7d" := by
  obtain ⟨c, vs, hcv⟩ : ∃ c vs, name.data = c :: vs := by
    cases hnd : name.data with
    | nil => rw [hnd] at h; exact absurd h (by decide)
    | cons c vs => exact ⟨c, vs, rfl⟩
  have hvalid := h
  rw [hcv] at hvalid
  rw [validVarChars, Bool.and_eq_true, List.all_cons, Bool.and_eq_true] at hvalid
  obtain ⟨hc, _, hall⟩ := hvalid
  have hm := matchScrollTail_result false c vs [] hc hall (by decide)
  rw [List.append_nil] at hm
  have hs : "scroll.".data ++ (c :: vs) = 's' :: ("croll.".data ++ (c :: vs)) := rfl
  have hmatch : matchScrollAt ('$' :: ("scroll.".data ++ (c :: vs)))
      = some (convert_scroll_placeholder false (String.mk (c :: vs)) none, []) := by
    rw [hs] at hm ⊢
    rw [show matchScrollAt ('$' :: ('s' :: ("croll.".data ++ (c :: vs))))
        = matchScrollTail false ('s' :: ("croll.".data ++ (c :: vs))) by
      simp [matchScrollAt]]
    exact hm
  have hdata : ("$scroll." ++ name).data = '$' :: ("scroll.".data ++ (c :: vs)) := by
    rw [String.data_append, hcv]
    rfl
  show String.mk (subScrollGo ("$scroll." ++ name).data.length ("$scroll." ++ name).data)
      = "\x7b\x7b " ++ scrollLookup name ++ " \x7d\x7d"
  rw [hdata]
  rw [show ('$' :: ("scroll.".data ++ (c :: vs))).length
      = ("scroll.".data ++ (c :: vs)).length + 1 from List.length_cons '$' _]
  rw [subScrollGo, hmatch]
  simp only [subScrollGo_nil, List.append_nil]
  have hname : String.mk (c :: vs) = name := by
    rw [← hcv]
  rw [hname]
  show convert_scroll_placeholder false name none
      = "\x7b\x7b " ++ scrollLookup name ++ " \x7d\x7d"
  rfl

/-- C3 witness: the mapped name `creator.fullName` becomes
`{{ author }}`, the unmapped name `unknown` passes through as
`{{ unknown }}`. -/
theorem scroll_mapping_translation_witness :
    validVarChars "creator.fullName".data = true
    ∧ convert_scroll_placeholders ("$scroll." ++ "creator.fullName")
        = "\x7b\x7b " ++ scrollLookup "creator.fullName" ++ " \x7d\x7d"
    ∧ scrollLookup "creator.fullName" = "author"
    ∧ convert_scroll_placeholders ("$scroll." ++ "unknown")
        = "\x7b\x7b " ++ scrollLookup "unknown" ++ " \x7d\x7d"
    ∧ scrollLookup "unknown" = "unknown" :=
  ⟨by decide, scroll_mapping_translation "creator.fullName" (by decide), by decide,
   scroll_mapping_translation "unknown" (by decide), by decide⟩

/-- C4: a null-safe placeholder with a date-format clause always orders
the date filter before the default filter:
`$!scroll.<name>.("<fmt>")` becomes
`{{ <mapped> | date('<fmt>') | default('') }}`. -/
theorem nullsafe_date_filter_order (name fmt : String)
    (h : validVarChars name.data = true) (hf : ¬ fmt.data = [])
    (hq : ∀ ch ∈ fmt.data, ¬ ch = '"') :
    convert_scroll_placeholders ("$!scroll." ++ name ++ ".(\"" ++ fmt ++ "\")")
      = "\x7b\x7b " ++ scrollLookup name ++ " | "
          ++ ("date(" ++ sqs ++ fmt ++ sqs ++ ")" ++ " | "
              ++ ("default(" ++ sqs ++ sqs ++ ")")) ++ " \x7d\x7d" := by
  obtain ⟨c, vs, hcv⟩ : ∃ c vs, name.data = c :: vs := by
    cases hnd : name.data with
    | nil => rw [hnd] at h; exact absurd h (by decide)
    | cons c vs => exact ⟨c, vs, rfl⟩
  have hvalid := h
  rw [hcv] at hvalid
  rw [validVarChars, Bool.and_eq_true, List.all_cons, Bool.and_eq_true] at hvalid
  obtain ⟨hc, _, hall⟩ := hvalid
  have hm := matchScrollTail_result_date true c vs fmt.data [] hc hall hf hq (by decide)
  have hs : "scroll.".data ++ (c :: (vs ++ ('.' :: '(' :: '"' :: (fmt.data ++ '"' :: ')' :: []))))
      = 's' :: ("croll.".data ++ (c :: (vs ++ ('.' :: '(' :: '"' :: (fmt.data ++ '"' :: ')' :: []))))) := rfl
  have hmatch : matchScrollAt
      ('$' :: '!' :: ("scroll.".data ++ (c :: (vs ++ ('.' :: '(' :: '"' :: (fmt.data ++ '"' :: ')' :: []))))))
      = some (convert_scroll_placeholder true (String.mk (c :: vs))
                (some (String.mk fmt.data)), []) := by
    rw [hs] at hm ⊢
    rw [show matchScrollAt
        ('$' :: '!' :: ('s' :: ("croll.".data ++ (c :: (vs ++ ('.' :: '(' :: '"' :: (fmt.data ++ '"' :: ')' :: [])))))))
        = matchScrollTail true ('s' :: ("croll.".data ++ (c :: (vs ++ ('.' :: '(' :: '"' :: (fmt.data ++ '"' :: ')' :: [])))))) by
      simp [matchScrollAt]]
    exact hm
  have hdata : ("$!scroll." ++ name ++ ".(\"" ++ fmt ++ "\")").data
      = '$' :: '!' :: ("scroll.".data ++ (c :: (vs ++ ('.' :: '(' :: '"' :: (fmt.data ++ '"' :: ')' :: []))))) := by
    rw [String.data_append, String.data_append, String.data_append, String.data_append, hcv]
    show ('$' :: '!' :: "scroll.".data) ++ (c :: vs) ++ ('.' :: '(' :: '"' :: [])
        ++ fmt.data ++ ('"' :: ')' :: []) = _
    simp
  show String.mk (subScrollGo ("$!scroll." ++ name ++ ".(\"" ++ fmt ++ "\")").data.length
      ("$!scroll." ++ name ++ ".(\"" ++ fmt ++ "\")").data) = _
  rw [hdata]
  rw [show ('$' :: '!' :: ("scroll.".data ++ (c :: (vs ++ ('.' :: '(' :: '"' :: (fmt.data ++ '"' :: ')' :: [])))))).length
      = (('!' :: ("scroll.".data ++ (c :: (vs ++ ('.' :: '(' :: '"' :: (fmt.data ++ '"' :: ')' :: [])))))).length) + 1
      from List.length_cons '$' _]
  rw [subScrollGo, hmatch]
  simp only [subScrollGo_nil, List.append_nil]
  have hname : String.mk (c :: vs) = name := by
    rw [← hcv]
  have hfmt : String.mk fmt.data = fmt := rfl
  rw [hname, hfmt]
  show convert_scroll_placeholder true name (some fmt)
      = "\x7b\x7b " ++ scrollLookup name ++ " | "
          ++ ("date(" ++ sqs ++ fmt ++ sqs ++ ")" ++ " | "
              ++ ("default(" ++ sqs ++ sqs ++ ")")) ++ " \x7d\x7d"
  rfl

/-- C4 witness: `$!scroll.creationdate.("yyyy-MM-dd")` becomes
`{{ created | date('yyyy-MM-dd') | default('') }}`. -/
theorem nullsafe_date_filter_order_witness :
    validVarChars "creationdate".data = true
    ∧ ¬ "yyyy-MM-dd".data = []
    ∧ (∀ ch ∈ "yyyy-MM-dd".data, ¬ ch = '"')
    ∧ convert_scroll_placeholders ("$!scroll." ++ "creationdate" ++ ".(\"" ++ "yyyy-MM-dd" ++ "\")")
        = "\x7b\x7b " ++ scrollLookup "creationdate" ++ " | "
            ++ ("date(" ++ sqs ++ "yyyy-MM-dd" ++ sqs ++ ")" ++ " | "
                ++ ("default(" ++ sqs ++ sqs ++ ")")) ++ " \x7d\x7d"
    ∧ scrollLookup "creationdate" = "created" :=
  ⟨by decide, by decide, by decide,
   nullsafe_date_filter_order "creationdate" "yyyy-MM-dd" (by decide) (by decide) (by decide),
   by decide⟩

/-- C1 (code bug): on the success path `cli.main` prints, as the
`output` field, the Python `str()` of the pair returned by
`render_template` — `(PosixPath('out.docx'), False)` — and not the
output file path `out.docx` the interface promises. -/
theorem cli_success_output_bug :
    cliSuccessOutputField "out.docx" false
      = "(PosixPath(" ++ sqs ++ "out.docx" ++ sqs ++ "), False)"
    ∧ ¬ cliSuccessOutputField "out.docx" false = "out.docx"
    ∧ cliSuccessJson "out.docx" false
      = "\x7b\"success\": true, \"output\": \"(PosixPath(" ++ sqs ++ "out.docx" ++ sqs
          ++ "), False)\"\x7d" :=
  ⟨by decide, by decide, by decide⟩

/-- C6: the date filter formats the fixed reference timestamp
`2025-01-05T04:30:00Z` as specified for the patterns `yyyy-MM-dd` and
`MMMM d, yyyy`, returns the empty string on empty input, and returns any
non-empty input that fails ISO-8601 parsing unchanged. -/
theorem date_filter_reference_values :
    date_filter "2025-01-05T04:30:00Z" "yyyy-MM-dd" = "2025-01-05"
    ∧ date_filter "2025-01-05T04:30:00Z" "MMMM d, yyyy" = "January 5, 2025"
    ∧ (∀ fmt : String, date_filter "" fmt = "")
    ∧ (∀ value fmt : String, ¬ value = "" → parseIso value = none →
        date_filter value fmt = value) := by
  refine ⟨by decide, by decide, ?_, ?_⟩
  · intro fmt
    simp [date_filter]
  · intro value fmt hne hparse
    simp [date_filter, hne, hparse]

/-- C6 witness: the unparsable input `not-a-date` is returned
unchanged. -/
theorem date_filter_reference_values_witness :
    ¬ ("not-a-date" : String) = ""
    ∧ parseIso "not-a-date" = none
    ∧ date_filter "not-a-date" "YYYY-MM-DD" = "not-a-date" :=
  ⟨by decide, by decide,
   date_filter_reference_values.2.2.2 "not-a-date" "YYYY-MM-DD" (by decide) (by decide)⟩

/-- C9: the scoped converter's state machine — acquisition converts a
macro-enabled input to a temporary copy, translates a standard input
with legacy placeholders to a temporary copy, and passes any other input
through with no temporary directory; release deletes exactly the
temporary directory that acquisition created (none in the pass-through
case), for every body outcome, normal or exceptional, and the body's
outcome is propagated. -/
theorem docm_converter_state_machine (env : ConvEnv) (path : String) (cp : Bool)
    (body : String → Except String Unit) :
    (if is_docm_file path then
       docmEnter env { originalPath := path, convertPlaceholders := cp }
         = ({ originalPath := path, convertedPath := some env.docmConverted,
              tempDir := some env.docmTempDir, convertPlaceholders := cp },
            env.docmConverted)
     else if cp && env.hasScroll then
       docmEnter env { originalPath := path, convertPlaceholders := cp }
         = ({ originalPath := path, convertedPath := some env.docxConverted,
              tempDir := some env.docxTempDir, convertPlaceholders := cp },
            env.docxConverted)
     else
       docmEnter env { originalPath := path, convertPlaceholders := cp }
         = ({ originalPath := path, convertPlaceholders := cp }, path))
    ∧ (withDocmConverter env path cp body).2
        = (docmEnter env { originalPath := path, convertPlaceholders := cp }).1.tempDir
    ∧ (withDocmConverter env path cp body).1
        = body (docmEnter env { originalPath := path, convertPlaceholders := cp }).2 := by
  refine ⟨?_, ?_, ?_⟩
  · by_cases h1 : is_docm_file path
    · simp [docmEnter, h1]
    · by_cases h2 : cp && env.hasScroll
      · simp [docmEnter, h1, h2]
      · simp [docmEnter, h1, h2]
  · simp [withDocmConverter, docmExit]
  · simp [withDocmConverter]

/-- C10: `build_context` defaults the modifier to the author — with no
`modifier` record the context's modifier/modifierEmail equal the
author's displayName/email, and with a `modifier` record its own fields
are used. -/
theorem modifier_defaults_to_author (pd : PageData) :
    (pd.modifier = none →
      (build_context_authors pd).modifier = (pd.author.getD {}).displayName.getD ""
      ∧ (build_context_authors pd).modifierEmail = (pd.author.getD {}).email.getD ""
      ∧ (build_context_authors pd).modifier = (build_context_authors pd).author
      ∧ (build_context_authors pd).modifierEmail = (build_context_authors pd).authorEmail)
    ∧ (∀ m : PersonInfo, pd.modifier = some m →
      (build_context_authors pd).modifier = m.displayName.getD ""
      ∧ (build_context_authors pd).modifierEmail = m.email.getD "") := by
  constructor
  · intro h
    simp [build_context_authors, h]
  · intro m h
    simp [build_context_authors, h]

/-- C10 witness: a page-data record with an author and no modifier gets
the author's name as its modifier. -/
theorem modifier_defaults_to_author_witness :
    (build_context_authors
        { author := some { displayName := some "John Doe", email := some "john@example.com" },
          modifier := none }).modifier
      = (build_context_authors
          { author := some { displayName := some "John Doe", email := some "john@example.com" },
            modifier := none }).author :=
  ((modifier_defaults_to_author _).1 rfl).2.2.1

theorem takeWhile_until_gt (a : List Char) (h : ∀ c ∈ a, ¬ c = '>')
    (r : List Char) :
    (a ++ '>' :: r).takeWhile (fun c => !(decide (c = '>'))) = a := by
  induction a with
  | nil => simp [List.takeWhile]
  | cons c cs ih =>
    have hc : ¬ c = '>' := h c (by simp)
    simp only [List.cons_append, List.takeWhile_cons]
    rw [if_pos (by simp [hc])]
    rw [ih (fun d hd => h d (List.mem_cons_of_mem c hd))]

theorem matchWTTag_core (attrs rest : List Char) (ha : ∀ c ∈ attrs, ¬ c = '>') :
    matchWTTag ("<w:t".data ++ (attrs ++ ('>' :: rest)))
      = some ("<w:t".data ++ (attrs ++ ['>']), rest) := by
  simp only [matchWTTag]
  rw [if_pos (leadsWith_self_append "<w:t".data (attrs ++ ('>' :: rest)))]
  have hdrop : ("<w:t".data ++ (attrs ++ ('>' :: rest))).drop 4 = attrs ++ ('>' :: rest) :=
    List.drop_left "<w:t".data _
  rw [hdrop]
  rw [takeWhile_until_gt attrs ha rest]
  have hdrop2 : (attrs ++ ('>' :: rest)).drop attrs.length = '>' :: rest :=
    List.drop_left attrs _
  rw [hdrop2]
  rfl

theorem matchScrollText_bang (bang : Bool) (tail : List Char) :
    matchScrollText (bangScroll bang ++ tail) = some (bangScroll bang, tail) := by
  cases bang with
  | false =>
    rw [show bangScroll false = "scroll.".data from rfl]
    have hno : leadsWith ('!' :: "scroll.".data) ("scroll.".data ++ tail) = false := rfl
    simp only [matchScrollText]
    rw [if_neg (fun hh => absurd (hno.symm.trans hh) Bool.false_ne_true)]
    rw [if_pos (leadsWith_self_append "scroll.".data tail)]
    have hdrop : ("scroll.".data ++ tail).drop 7 = tail := List.drop_left "scroll.".data tail
    rw [hdrop]
  | true =>
    rw [show bangScroll true = '!' :: "scroll.".data from rfl]
    simp only [matchScrollText]
    rw [if_pos (leadsWith_self_append ('!' :: "scroll.".data) tail)]
    have hdrop : (('!' :: "scroll.".data) ++ tail).drop 8 = tail :=
      List.drop_left ('!' :: "scroll.".data) tail
    rw [hdrop]

theorem matchScrollText_lt (r2 : List Char) : matchScrollText ('<' :: r2) = none := rfl

theorem wtScrollAt_wt (attrs tail : List Char) (bang : Bool)
    (ha : ∀ c ∈ attrs, ¬ c = '>') :
    wtScrollAt (wtOpen attrs ++ (bangScroll bang ++ tail))
      = some (wtOpen attrs, bangScroll bang, tail) := by
  have hsh : wtOpen attrs ++ (bangScroll bang ++ tail)
      = "<w:t".data ++ (attrs ++ ('>' :: (bangScroll bang ++ tail))) := by
    simp [wtOpen, List.append_assoc]
  rw [hsh]
  simp only [wtScrollAt]
  rw [matchWTTag_core attrs (bangScroll bang ++ tail) ha]
  simp [matchScrollText_bang bang tail, wtOpen]

theorem leadsWith_wt_gtfree {b Y : List Char} (hb : ∀ c ∈ b, ¬ c = '>')
    (h : leadsWith ('w' :: ':' :: 't' :: []) (b ++ ('>' :: Y)) = true) :
    ∃ b2, b = 'w' :: ':' :: 't' :: b2 := by
  rcases b with _ | ⟨x, _ | ⟨y, _ | ⟨z, b3⟩⟩⟩
  · exact absurd (show (false : Bool) = true from h) (by decide)
  · have h2 : (decide ('w' = x) && false) = true := h
    simp at h2
  · have h2 : (decide ('w' = x) && (decide (':' = y) && false)) = true := h
    simp at h2
  · have h2 : (decide ('w' = x) && (decide (':' = y) && (decide ('t' = z) && true))) = true := h
    simp at h2
    obtain ⟨h1, h2, h3⟩ := h2
    exact ⟨b3, by rw [h1, h2, h3]⟩

theorem leadsWith_wr_gtfree {b Y : List Char} (hb : ∀ c ∈ b, ¬ c = '>')
    (h : leadsWith ('/' :: 'w' :: ':' :: 'r' :: '>' :: []) (b ++ ('>' :: Y)) = true) :
    b = '/' :: 'w' :: ':' :: 'r' :: [] := by
  rcases b with _ | ⟨x, _ | ⟨y, _ | ⟨z, _ | ⟨u, _ | ⟨v, b5⟩⟩⟩⟩⟩
  · exact absurd (show (false : Bool) = true from h) (by decide)
  · have h2 : (decide ('/' = x) && false) = true := h
    simp at h2
  · have h2 : (decide ('/' = x) && (decide ('w' = y) && false)) = true := h
    simp at h2
  · have h2 : (decide ('/' = x) && (decide ('w' = y) && (decide (':' = z) && false))) = true := h
    simp at h2
  · have h2 : (decide ('/' = x) && (decide ('w' = y) && (decide (':' = z)
        && (decide ('r' = u) && true)))) = true := h
    simp at h2
    obtain ⟨h1, h3, h4, h5⟩ := h2
    rw [h1, h3, h4, h5]
  · have h2 : (decide ('/' = x) && (decide ('w' = y) && (decide (':' = z)
        && (decide ('r' = u) && (decide ('>' = v) && true))))) = true := h
    simp at h2
    exact absurd h2.2.2.2.2.symm (hb v (by simp))

theorem wtScrollAt_genTag (b r2 : List Char) (hb : ∀ c ∈ b, ¬ c = '>') :
    wtScrollAt (genTag b ++ ('<' :: r2)) = none := by
  have hsh : genTag b ++ ('<' :: r2) = '<' :: (b ++ ('>' :: ('<' :: r2))) := by
    simp [genTag]
  rw [hsh]
  by_cases hwt : leadsWith "<w:t".data ('<' :: (b ++ ('>' :: ('<' :: r2)))) = true
  · have h3 : leadsWith ('w' :: ':' :: 't' :: []) (b ++ ('>' :: ('<' :: r2))) = true := hwt
    obtain ⟨b2, hb2⟩ := leadsWith_wt_gtfree hb h3
    subst hb2
    have hb2f : ∀ c ∈ b2, ¬ c = '>' := fun c hc => hb c (by simp [hc])
    rw [show ('<' :: (('w' :: ':' :: 't' :: b2) ++ ('>' :: ('<' :: r2))))
        = "<w:t".data ++ (b2 ++ ('>' :: ('<' :: r2))) from rfl]
    simp only [wtScrollAt]
    rw [matchWTTag_core b2 ('<' :: r2) hb2f]
    simp [matchScrollText_lt]
  · have hnone : matchWTTag ('<' :: (b ++ ('>' :: ('<' :: r2)))) = none := by
      simp only [matchWTTag]
      rw [if_neg hwt]
    simp [wtScrollAt, hnone]

theorem matchGenTag_genTag (b rest : List Char) (hne : b ≠ [])
    (hb : ∀ c ∈ b, ¬ c = '>') :
    matchGenTag (genTag b ++ rest) = some (genTag b, rest) := by
  have hsh : genTag b ++ rest = '<' :: (b ++ ('>' :: rest)) := by
    simp [genTag]
  rw [hsh]
  rcases b with _ | ⟨c, b1⟩
  · exact absurd rfl hne
  · simp only [matchGenTag]
    rw [takeWhile_until_gt (c :: b1) hb rest]
    have hdrop : ((c :: b1) ++ ('>' :: rest)).drop (c :: b1).length = '>' :: rest :=
      List.drop_left _ _
    rw [hdrop]
    rfl

theorem concatTags_wt_head (bs : List (List Char)) (attrs Y : List Char) :
    ∃ r2, concatTags bs ++ (wtOpen attrs ++ Y) = '<' :: r2 := by
  cases bs with
  | nil => exact ⟨'w' :: ':' :: 't' :: ((attrs ++ ['>']) ++ Y), rfl⟩
  | cons b bs2 =>
    exact ⟨((b ++ ['>']) ++ concatTags bs2) ++ (wtOpen attrs ++ Y), rfl⟩

theorem tagsLoop_step_wt {fuel : Nat} {cs wt sc r2 : List Char}
    (h : wtScrollAt cs = some (wt, sc, r2)) :
    tagsLoop (fuel + 1) cs = some ([], wt, sc, r2) := by
  rw [tagsLoop, h]

theorem tagsLoop_step_tag {fuel : Nat} {cs tag r : List Char}
    (h1 : wtScrollAt cs = none) (h2 : matchGenTag cs = some (tag, r)) :
    tagsLoop (fuel + 1) cs
      = match tagsLoop fuel r with
        | some (tags, wt, sc, r2) => some (tag ++ tags, wt, sc, r2)
        | none => none := by
  rw [tagsLoop, h1, h2]

theorem tagsLoop_markup (bang : Bool) (attrs tail : List Char)
    (ha : ∀ c ∈ attrs, ¬ c = '>') :
    ∀ (bs : List (List Char)) (k : Nat),
      (∀ b ∈ bs, b ≠ [] ∧ (∀ c ∈ b, ¬ c = '>')) →
      tagsLoop (bs.length + (k + 1))
          (concatTags bs ++ (wtOpen attrs ++ (bangScroll bang ++ tail)))
        = some (concatTags bs, wtOpen attrs, bangScroll bang, tail) := by
  intro bs
  induction bs with
  | nil =>
    intro k _
    rw [show (([] : List (List Char)).length + (k + 1)) = k + 1 from by simp]
    rw [show concatTags ([] : List (List Char)) = ([] : List Char) from rfl]
    rw [List.nil_append]
    rw [tagsLoop_step_wt (wtScrollAt_wt attrs tail bang ha)]
  | cons b bs2 ih =>
    intro k hbs
    obtain ⟨hne, hgt⟩ := hbs b (by simp)
    have hbs2 : ∀ b2 ∈ bs2, b2 ≠ [] ∧ (∀ c ∈ b2, ¬ c = '>') :=
      fun b2 hb2 => hbs b2 (by simp [hb2])
    rw [show ((b :: bs2).length + (k + 1)) = (bs2.length + (k + 1)) + 1 from by
      rw [List.length_cons]; omega]
    have hsh : concatTags (b :: bs2) ++ (wtOpen attrs ++ (bangScroll bang ++ tail))
        = genTag b ++ (concatTags bs2 ++ (wtOpen attrs ++ (bangScroll bang ++ tail))) := by
      rw [show concatTags (b :: bs2) = genTag b ++ concatTags bs2 from rfl, List.append_assoc]
    rw [hsh]
    obtain ⟨r2, hr2⟩ := concatTags_wt_head bs2 attrs (bangScroll bang ++ tail)
    have hwnone : wtScrollAt (genTag b
        ++ (concatTags bs2 ++ (wtOpen attrs ++ (bangScroll bang ++ tail)))) = none := by
      rw [hr2]
      exact wtScrollAt_genTag b r2 hgt
    rw [tagsLoop_step_tag hwnone (matchGenTag_genTag b _ hne hgt)]
    rw [ih k hbs2]
    rfl

theorem concatTags_length_ge (bs : List (List Char)) :
    bs.length ≤ (concatTags bs).length := by
  induction bs with
  | nil => simp [concatTags]
  | cons b bs2 ih =>
    rw [show concatTags (b :: bs2) = genTag b ++ concatTags bs2 from rfl]
    rw [List.length_append, List.length_cons]
    have h1 : 1 ≤ (genTag b).length := by simp [genTag]
    omega

theorem splitAttempt_markup (bang : Bool) (mid0 attrs tail : List Char)
    (bs : List (List Char)) (ha : ∀ c ∈ attrs, ¬ c = '>')
    (hbs : ∀ b ∈ bs, b ≠ [] ∧ (∀ c ∈ b, ¬ c = '>')) :
    splitAttempt mid0 (concatTags bs ++ (wtOpen attrs ++ (bangScroll bang ++ tail)))
      = some ("</w:t>".data ++ (mid0 ++ (concatTags bs
          ++ (wtOpen attrs ++ ('$' :: bangScroll bang)))), tail) := by
  simp only [splitAttempt]
  have hlen : (concatTags bs ++ (wtOpen attrs ++ (bangScroll bang ++ tail))).length + 1
      = bs.length + (((concatTags bs
          ++ (wtOpen attrs ++ (bangScroll bang ++ tail))).length - bs.length) + 1) := by
    have h1 := concatTags_length_ge bs
    rw [List.length_append]
    omega
  rw [hlen, tagsLoop_markup bang attrs tail ha bs _ hbs]
  simp [List.append_assoc]

theorem matchSplitAt_markup (bang : Bool) (attrs tail : List Char)
    (bs : List (List Char)) (ha : ∀ c ∈ attrs, ¬ c = '>')
    (hbs : ∀ b ∈ bs, b ≠ [] ∧ (∀ c ∈ b, ¬ c = '>')) :
    matchSplitAt ('$' :: ("</w:t>".data
        ++ (concatTags bs ++ (wtOpen attrs ++ (bangScroll bang ++ tail)))))
      = some ("</w:t>".data ++ (concatTags bs
          ++ (wtOpen attrs ++ ('$' :: bangScroll bang))), tail) := by
  rw [matchSplitAt]
  rw [if_pos rfl]
  rw [if_pos (leadsWith_self_append "</w:t>".data _)]
  have hdrop6 : ("</w:t>".data
      ++ (concatTags bs ++ (wtOpen attrs ++ (bangScroll bang ++ tail)))).drop 6
      = concatTags bs ++ (wtOpen attrs ++ (bangScroll bang ++ tail)) :=
    List.drop_left "</w:t>".data _
  rw [hdrop6]
  by_cases hwr : leadsWith "</w:r>".data
      (concatTags bs ++ (wtOpen attrs ++ (bangScroll bang ++ tail))) = true
  · rw [if_pos hwr]
    rcases bs with _ | ⟨b, bs2⟩
    · exact absurd (show (false : Bool) = true from hwr) (by decide)
    · have hsh : concatTags (b :: bs2) ++ (wtOpen attrs ++ (bangScroll bang ++ tail))
          = '<' :: (b ++ ('>' :: (concatTags bs2
              ++ (wtOpen attrs ++ (bangScroll bang ++ tail))))) := by
        rw [show concatTags (b :: bs2) = genTag b ++ concatTags bs2 from rfl]
        simp [genTag, List.append_assoc]
      rw [hsh] at hwr
      have h3 : leadsWith ('/' :: 'w' :: ':' :: 'r' :: '>' :: [])
          (b ++ ('>' :: (concatTags bs2
            ++ (wtOpen attrs ++ (bangScroll bang ++ tail))))) = true := hwr
      obtain ⟨hne, hgt⟩ := hbs b (by simp)
      have hb4 := leadsWith_wr_gtfree hgt h3
      subst hb4
      have hct : concatTags (('/' :: 'w' :: ':' :: 'r' :: []) :: bs2)
          ++ (wtOpen attrs ++ (bangScroll bang ++ tail))
          = "</w:r>".data ++ (concatTags bs2
              ++ (wtOpen attrs ++ (bangScroll bang ++ tail))) := by
        rw [show concatTags (('/' :: 'w' :: ':' :: 'r' :: []) :: bs2)
            = "</w:r>".data ++ concatTags bs2 from rfl]
        rw [List.append_assoc]
      rw [hct]
      have hdropwr : ("</w:r>".data ++ (concatTags bs2
          ++ (wtOpen attrs ++ (bangScroll bang ++ tail)))).drop 6
          = concatTags bs2 ++ (wtOpen attrs ++ (bangScroll bang ++ tail)) :=
        List.drop_left "</w:r>".data _
      rw [hdropwr]
      have hbs2 : ∀ b2 ∈ bs2, b2 ≠ [] ∧ (∀ c ∈ b2, ¬ c = '>') :=
        fun b2 hb2 => hbs b2 (by simp [hb2])
      rw [splitAttempt_markup bang "</w:r>".data attrs tail bs2 ha hbs2]
      show some ("</w:t>".data ++ ("</w:r>".data ++ (concatTags bs2
          ++ (wtOpen attrs ++ ('$' :: bangScroll bang)))), tail) = _
      rw [show concatTags (('/' :: 'w' :: ':' :: 'r' :: []) :: bs2)
          = "</w:r>".data ++ concatTags bs2 from rfl]
      simp [List.append_assoc]
  · rw [if_neg hwr]
    rw [splitAttempt_markup bang [] attrs tail bs ha hbs]
    simp

theorem subSplitGo_nodollar_of_le :
    ∀ (cs : List Char) (fuel : Nat), (∀ c ∈ cs, ¬ c = '$') → cs.length ≤ fuel →
      subSplitGo fuel cs = cs := by
  intro cs
  induction cs with
  | nil => intro fuel _ _; exact subSplitGo_nil fuel
  | cons c rest ih =>
    intro fuel h hle
    cases fuel with
    | zero => simp at hle
    | succ f =>
      rw [subSplitGo, matchSplitAt_cons_ne c rest (h c (by simp))]
      have hrec := ih f (fun d hd => h d (by simp [hd])) (by simp at hle; omega)
      simp [hrec]

theorem subScrollGo_nodollar_of_le :
    ∀ (cs : List Char) (fuel : Nat), (∀ c ∈ cs, ¬ c = '$') → cs.length ≤ fuel →
      subScrollGo fuel cs = cs := by
  intro cs
  induction cs with
  | nil => intro fuel _ _; exact subScrollGo_nil fuel
  | cons c rest ih =>
    intro fuel h hle
    cases fuel with
    | zero => simp at hle
    | succ f =>
      rw [subScrollGo, matchScrollAt_cons_ne c rest (h c (by simp))]
      have hrec := ih f (fun d hd => h d (by simp [hd])) (by simp at hle; omega)
      simp [hrec]

theorem markupOk_elim {bs : List (List Char)} (h : markupOk bs = true) :
    ∀ b ∈ bs, b ≠ [] ∧ (∀ c ∈ b, ¬ c = '>') ∧ (∀ c ∈ b, ¬ c = '$') := by
  intro b hb
  have h1 : tagBodyOk b = true := by
    rw [markupOk, List.all_eq_true] at h
    exact h b hb
  rw [tagBodyOk, Bool.and_eq_true, List.all_eq_true] at h1
  obtain ⟨hne, hall⟩ := h1
  refine ⟨?_, ?_, ?_⟩
  · intro he
    rw [he] at hne
    exact absurd hne (by decide)
  · intro c hc
    have h2 := hall c hc
    rw [Bool.and_eq_true] at h2
    simpa using h2.1
  · intro c hc
    have h2 := hall c hc
    rw [Bool.and_eq_true] at h2
    simpa using h2.2

theorem attrsOk_elim {a : List Char} (h : attrsOk a = true) :
    (∀ c ∈ a, ¬ c = '>') ∧ (∀ c ∈ a, ¬ c = '$') := by
  rw [attrsOk, List.all_eq_true] at h
  constructor
  · intro c hc
    have h2 := h c hc
    rw [Bool.and_eq_true] at h2
    simpa using h2.1
  · intro c hc
    have h2 := h c hc
    rw [Bool.and_eq_true] at h2
    simpa using h2.2

theorem concatTags_nodollar {bs : List (List Char)}
    (h : ∀ b ∈ bs, ∀ c ∈ b, ¬ c = '$') :
    ∀ c ∈ concatTags bs, ¬ c = '$' := by
  induction bs with
  | nil => intro c hc; simp [concatTags] at hc
  | cons b bs2 ih =>
    intro c hc
    rw [show concatTags (b :: bs2) = genTag b ++ concatTags bs2 from rfl] at hc
    rcases List.mem_append.mp hc with h1 | h1
    · rcases List.mem_cons.mp h1 with h2 | h2
      · subst h2; decide
      · rcases List.mem_append.mp h2 with h3 | h3
        · exact h b (by simp) c h3
        · have h4 : c = '>' := by simpa using h3
          subst h4; decide
    · exact ih (fun b2 hb2 => h b2 (by simp [hb2])) c h1

theorem wtOpen_nodollar {attrs : List Char} (h : ∀ c ∈ attrs, ¬ c = '$') :
    ∀ c ∈ wtOpen attrs, ¬ c = '$' := by
  intro c hc
  rw [wtOpen] at hc
  rcases List.mem_append.mp hc with h1 | h1
  · exact (by decide : ∀ c ∈ "<w:t".data, ¬ c = '$') c h1
  · rcases List.mem_append.mp h1 with h2 | h2
    · exact h c h2
    · have h3 : c = '>' := by simpa using h2
      subst h3; decide

/-- Normalisation of the split form repaired by the source pattern: the
`$` moves from the run before the markup to the start of the `scroll.`
text in the reopened run. -/
theorem normalize_split_markup (bang : Bool) (bs : List (List Char))
    (attrs : List Char) (name : String)
    (hbs : ∀ b ∈ bs, b ≠ [] ∧ (∀ c ∈ b, ¬ c = '>'))
    (ha : ∀ c ∈ attrs, ¬ c = '>')
    (hnd : ∀ c ∈ name.data, ¬ c = '$') :
    normalize_split_placeholders (splitFragment bang bs attrs name)
      = String.mk ("<w:t>".data ++ (("</w:t>".data
          ++ (concatTags bs ++ (wtOpen attrs ++ ('$' :: bangScroll bang))))
          ++ (name.data ++ "</w:t>".data))) := by
  have hdata : (splitFragment bang bs attrs name).data
      = "<w:t>".data ++ ('$' :: ("</w:t>".data
          ++ (concatTags bs ++ (wtOpen attrs
            ++ (bangScroll bang ++ (name.data ++ "</w:t>".data)))))) := by
    show "<w:t>$</w:t>".data ++ (concatTags bs
        ++ (wtOpen attrs ++ (bangScroll bang ++ (name.data ++ "</w:t>".data)))) = _
    rw [show "<w:t>$</w:t>".data = "<w:t>".data ++ ('$' :: "</w:t>".data) from rfl]
    simp [List.append_assoc]
  show String.mk (subSplitGo _ _) = _
  rw [hdata]
  rw [List.length_append]
  rw [subSplitGo_append_nodollar "<w:t>".data _ _ (by decide)]
  rw [show ('$' :: ("</w:t>".data ++ (concatTags bs ++ (wtOpen attrs
        ++ (bangScroll bang ++ (name.data ++ "</w:t>".data)))))).length
      = ("</w:t>".data ++ (concatTags bs ++ (wtOpen attrs
          ++ (bangScroll bang ++ (name.data ++ "</w:t>".data))))).length + 1
      from List.length_cons _ _]
  rw [subSplitGo]
  rw [matchSplitAt_markup bang attrs (name.data ++ "</w:t>".data) bs ha hbs]
  show String.mk ("<w:t>".data ++ (("</w:t>".data
      ++ (concatTags bs ++ (wtOpen attrs ++ ('$' :: bangScroll bang))))
      ++ subSplitGo ("</w:t>".data ++ (concatTags bs ++ (wtOpen attrs
          ++ (bangScroll bang ++ (name.data ++ "</w:t>".data))))).length
        (name.data ++ "</w:t>".data))) = _
  have hfree : ∀ c ∈ name.data ++ "</w:t>".data, ¬ c = '$' :=
    List.forall_mem_append.mpr ⟨hnd, by decide⟩
  have hle : (name.data ++ "</w:t>".data).length
      ≤ ("</w:t>".data ++ (concatTags bs ++ (wtOpen attrs
          ++ (bangScroll bang ++ (name.data ++ "</w:t>".data))))).length := by
    simp only [List.length_append]
    omega
  rw [subSplitGo_nodollar_of_le (name.data ++ "</w:t>".data) _ hfree hle]

/-- Translation of a `$scroll.<name></w:t>` or `$!scroll.<name></w:t>`
token preceded by arbitrary dollar-free text. -/
theorem convert_token_bang (pre : List Char) (bang : Bool) (name : String)
    (hp : ∀ c ∈ pre, ¬ c = '$') (h : validVarChars name.data = true) :
    convert_scroll_placeholders (String.mk (pre
        ++ ('$' :: (bangScroll bang ++ (name.data ++ "</w:t>".data)))))
      = String.mk (pre ++ ((convert_scroll_placeholder bang name none).data
          ++ "</w:t>".data)) := by
  obtain ⟨c, vs, hcv⟩ : ∃ c vs, name.data = c :: vs := by
    cases hnd : name.data with
    | nil => rw [hnd] at h; exact absurd h (by decide)
    | cons c vs => exact ⟨c, vs, rfl⟩
  have hvalid := h
  rw [hcv] at hvalid
  rw [validVarChars, Bool.and_eq_true, List.all_cons, Bool.and_eq_true] at hvalid
  obtain ⟨hc, _, hall⟩ := hvalid
  have hm := matchScrollTail_result bang c vs "</w:t>".data hc hall (by decide)
  have hmatch : matchScrollAt ('$' :: (bangScroll bang ++ (name.data ++ "</w:t>".data)))
      = some (convert_scroll_placeholder bang (String.mk (c :: vs)) none,
              "</w:t>".data) := by
    rw [hcv]
    cases bang with
    | false =>
      rw [show ('$' :: (bangScroll false ++ ((c :: vs) ++ "</w:t>".data)))
          = '$' :: ('s' :: ("croll.".data ++ (c :: (vs ++ "</w:t>".data)))) from rfl]
      rw [show matchScrollAt ('$' :: ('s' :: ("croll.".data ++ (c :: (vs ++ "</w:t>".data)))))
          = matchScrollTail false ('s' :: ("croll.".data ++ (c :: (vs ++ "</w:t>".data))))
        from by simp [matchScrollAt]]
      exact hm
    | true =>
      rw [show ('$' :: (bangScroll true ++ ((c :: vs) ++ "</w:t>".data)))
          = '$' :: ('!' :: ("scroll.".data ++ (c :: (vs ++ "</w:t>".data)))) from rfl]
      rw [show matchScrollAt ('$' :: ('!' :: ("scroll.".data ++ (c :: (vs ++ "</w:t>".data)))))
          = matchScrollTail true ("scroll.".data ++ (c :: (vs ++ "</w:t>".data)))
        from by simp [matchScrollAt]]
      exact hm
  show String.mk (subScrollGo _ _) = _
  rw [List.length_append]
  rw [subScrollGo_append_nodollar pre _ _ hp]
  rw [show ('$' :: (bangScroll bang ++ (name.data ++ "</w:t>".data))).length
      = (bangScroll bang ++ (name.data ++ "</w:t>".data)).length + 1
      from List.length_cons _ _]
  rw [subScrollGo, hmatch]
  show String.mk (pre ++ ((convert_scroll_placeholder bang (String.mk (c :: vs)) none).data
      ++ subScrollGo (bangScroll bang ++ (name.data ++ "</w:t>".data)).length
        "</w:t>".data)) = _
  have hle : ("</w:t>".data).length
      ≤ (bangScroll bang ++ (name.data ++ "</w:t>".data)).length := by
    simp only [List.length_append]
    omega
  rw [subScrollGo_nodollar_of_le "</w:t>".data _ (by decide) hle]
  have hname : String.mk (c :: vs) = name := by rw [← hcv]
  rw [hname]

/-- C2 (amended): when a `$scroll`/`$!scroll` placeholder is split
exactly after the `$` — the first text run ending with `$`, then any run
of intervening markup tags (bodies nonempty and free of `>` and `$`),
then a reopening `<w:t ...>` whose attribute text is free of `>` and `$`
and whose text starts with `scroll.` or `!scroll.` — split-run repair
followed by translation yields the translated token
`convert_scroll_placeholder` in the reopened run, exactly as translating
the joined token inside a single run does. -/
theorem split_after_dollar_repair_equiv (bang : Bool) (bs : List (List Char))
    (attrs : List Char) (name : String) (hbs : markupOk bs = true)
    (ha : attrsOk attrs = true) (h : validVarChars name.data = true) :
    convert_scroll_placeholders (normalize_split_placeholders
        (splitFragment bang bs attrs name))
      = String.mk ("<w:t></w:t>".data ++ (concatTags bs ++ wtOpen attrs))
          ++ convert_scroll_placeholder bang name none ++ "</w:t>"
    ∧ convert_scroll_placeholders (joinedRun bang attrs name)
      = String.mk (wtOpen attrs) ++ convert_scroll_placeholder bang name none
          ++ "</w:t>" := by
  have hbsE := markupOk_elim hbs
  have haE := attrsOk_elim ha
  have hnd : ∀ c ∈ name.data, ¬ c = '$' := by
    intro c hc
    have hall : name.data.all isScrollVarChar = true := by
      cases hcv : name.data with
      | nil => simp
      | cons c0 cs =>
        have h2 := h
        rw [hcv, validVarChars, Bool.and_eq_true] at h2
        exact h2.2
    exact scrollVarChar_ne_dollar (by
      rw [List.all_eq_true] at hall
      exact hall c hc)
  constructor
  · rw [normalize_split_markup bang bs attrs name
      (fun b hb => ⟨(hbsE b hb).1, (hbsE b hb).2.1⟩) haE.1 hnd]
    have hre : ("<w:t>".data ++ (("</w:t>".data
        ++ (concatTags bs ++ (wtOpen attrs ++ ('$' :: bangScroll bang))))
        ++ (name.data ++ "</w:t>".data)))
        = ("<w:t>".data ++ ("</w:t>".data ++ (concatTags bs ++ wtOpen attrs)))
            ++ ('$' :: (bangScroll bang ++ (name.data ++ "</w:t>".data))) := by
      simp [List.append_assoc]
    rw [hre]
    have hpre : ∀ c ∈ ("<w:t>".data
        ++ ("</w:t>".data ++ (concatTags bs ++ wtOpen attrs))), ¬ c = '$' := by
      intro c hc
      rcases List.mem_append.mp hc with h1 | h1
      · exact (by decide : ∀ c ∈ "<w:t>".data, ¬ c = '$') c h1
      · rcases List.mem_append.mp h1 with h2 | h2
        · exact (by decide : ∀ c ∈ "</w:t>".data, ¬ c = '$') c h2
        · rcases List.mem_append.mp h2 with h3 | h3
          · exact concatTags_nodollar (fun b hb => (hbsE b hb).2.2) c h3
          · exact wtOpen_nodollar haE.2 c h3
    rw [convert_token_bang _ bang name hpre h]
    apply String.ext
    rw [String.data_append, String.data_append]
    rw [show "<w:t></w:t>".data = "<w:t>".data ++ "</w:t>".data from rfl]
    simp [List.append_assoc]
  · rw [show joinedRun bang attrs name = String.mk (wtOpen attrs
        ++ ('$' :: (bangScroll bang ++ (name.data ++ "</w:t>".data)))) from rfl]
    rw [convert_token_bang (wtOpen attrs) bang name (wtOpen_nodollar haE.2) h]
    apply String.ext
    rw [String.data_append, String.data_append]
    simp [List.append_assoc]

/-- C2 witness: the null-safe `$!scroll.title`, split after the `$` with
the markup `</w:r><w:proofErr w:type="spellStart"/><w:r>` between the two
runs and an `xml:space` attribute on the reopening `<w:t>`, repairs and
translates to the same token as the joined `$!scroll.title`. -/
theorem split_after_dollar_repair_equiv_witness :
    markupOk ["/w:r".data, "w:proofErr w:type=\"spellStart\"/".data, "w:r".data] = true
    ∧ attrsOk " xml:space=\"preserve\"".data = true
    ∧ validVarChars "title".data = true
    ∧ convert_scroll_placeholders (normalize_split_placeholders
        (splitFragment true
          ["/w:r".data, "w:proofErr w:type=\"spellStart\"/".data, "w:r".data]
          " xml:space=\"preserve\"".data "title"))
      = String.mk ("<w:t></w:t>".data
          ++ (concatTags
                ["/w:r".data, "w:proofErr w:type=\"spellStart\"/".data, "w:r".data]
              ++ wtOpen " xml:space=\"preserve\"".data))
          ++ convert_scroll_placeholder true "title" none ++ "</w:t>"
    ∧ convert_scroll_placeholders (joinedRun true " xml:space=\"preserve\"".data "title")
      = String.mk (wtOpen " xml:space=\"preserve\"".data)
          ++ convert_scroll_placeholder true "title" none ++ "</w:t>" :=
  ⟨by decide, by decide, by decide,
   (split_after_dollar_repair_equiv true
      ["/w:r".data, "w:proofErr w:type=\"spellStart\"/".data, "w:r".data]
      " xml:space=\"preserve\"".data "title" (by decide) (by decide) (by decide)).1,
   (split_after_dollar_repair_equiv true
      ["/w:r".data, "w:proofErr w:type=\"spellStart\"/".data, "w:r".data]
      " xml:space=\"preserve\"".data "title" (by decide) (by decide) (by decide)).2⟩

/-- C2 counterexample: a `$scroll` token split in the middle of the word
`scroll` (split point after `$scro`) is not repaired by
`normalize_split_placeholders`, and translation then leaves the token
untranslated, while translating the joined form produces `{{ title }}` —
so repair-then-translate is not equivalent to translating the joined
token for this split point. -/
theorem split_mid_token_not_repaired :
    normalize_split_placeholders "<w:t>$scro</w:t></w:r><w:r><w:t>ll.title</w:t>"
      = "<w:t>$scro</w:t></w:r><w:r><w:t>ll.title</w:t>"
    ∧ convert_scroll_placeholders (normalize_split_placeholders
          "<w:t>$scro</w:t></w:r><w:r><w:t>ll.title</w:t>")
      = "<w:t>$scro</w:t></w:r><w:r><w:t>ll.title</w:t>"
    ∧ convert_scroll_placeholders "<w:t>$scroll.title</w:t>"
      = "<w:t>\x7b\x7b title \x7d\x7d</w:t>"
    ∧ containsSub "\x7b\x7b title \x7d\x7d".data
        (convert_scroll_placeholders (normalize_split_placeholders
          "<w:t>$scro</w:t></w:r><w:r><w:t>ll.title</w:t>")).data = false
    ∧ containsSub "\x7b\x7b title \x7d\x7d".data
        (convert_scroll_placeholders "<w:t>$scroll.title</w:t>").data = true :=
  ⟨by decide, by decide, by decide, by decide, by decide⟩

theorem removeAllSub_id (pat : List Char) :
    ∀ (cs : List Char) (k : Nat), containsSub pat cs = false →
      removeAllSub pat (cs.length + k) cs = cs := by
  intro cs
  induction cs with
  | nil =>
    intro k _
    cases k with
    | zero => rfl
    | succ n => rfl
  | cons c rest ih =>
    intro k h
    obtain ⟨h1, h2⟩ := containsSub_cons_false h
    rw [show (c :: rest).length + k = (rest.length + k) + 1 from by simp [Nat.succ_add]]
    rw [removeAllSub, h1]
    simp [ih k h2]

theorem pyReplaceDrop_statusDash (c : String)
    (h : containsSub "status-".data c.data = false) :
    pyReplaceDrop "status-" ("status-" ++ c) = c := by
  show String.mk (removeAllSub "status-".data ("status-" ++ c).data.length
      ("status-" ++ c).data) = c
  rw [String.data_append]
  have hlen : ("status-".data ++ c.data).length = (c.data.length + 6) + 1 := by
    rw [List.length_append]
    rw [show ("status-".data).length = 7 from rfl]
    omega
  rw [hlen]
  rw [show "status-".data ++ c.data = 's' :: ("tatus-".data ++ c.data) from rfl]
  rw [removeAllSub]
  have hl : leadsWith "status-".data ('s' :: ("tatus-".data ++ c.data)) = true :=
    leadsWith_self_append "status-".data c.data
  rw [hl]
  have hd : List.drop ("status-".data).length ('s' :: ("tatus-".data ++ c.data)) = c.data :=
    List.drop_left "status-".data c.data
  simp only [if_true, hd]
  rw [removeAllSub_id "status-".data c.data 6 h]

theorem statusColorName_concrete (c : String) :
    statusColorName ["status", "status-" ++ c]
      = some (pyReplaceDrop "status-" ("status-" ++ c)) := by
  have hne : ¬ ("status-" ++ c) = "status" := by
    intro he
    have hlen := congrArg String.length he
    rw [String.length_append] at hlen
    rw [show ("status-" : String).length = 7 from rfl,
        show ("status" : String).length = 6 from rfl] at hlen
    omega
  have hb : (leadsWith "status-".data ("status-" ++ c).data && (("status-" ++ c) != "status"))
      = true := by
    rw [String.data_append, leadsWith_self_append]
    simp [bne_iff_ne, hne]
  rw [statusColorName]
  rw [List.find?]
  rw [show (leadsWith "status-".data ("status" : String).data
      && (("status" : String) != "status")) = false from by decide]
  rw [List.find?]
  rw [hb]

theorem statusBadgeRuns_concrete (c content : String)
    (h : containsSub "status-".data c.data = false) :
    statusBadgeRuns ["status", "status-" ++ c] content
      = [plainRun " ",
         { text := " " ++ pyStrip content ++ " ", bold := true, fontSizePt := some 9,
           colorRGB := some (if c = "gray" ∨ c = "grey" ∨ c = "yellow"
               then ((0, 0, 0) : Nat × Nat × Nat) else (255, 255, 255)),
           highlight := some ((highlightMap.lookup c).getD "darkGray") },
         plainRun " "] := by
  rw [statusBadgeRuns]
  rw [statusColorName_concrete, pyReplaceDrop_statusDash c h]
  simp only [runShadingHighlight, Option.some.injEq]

/-- C8 (amended): a status-badge span `status status-<color>` emits a
space-padded bold 9pt run whose foreground is black exactly for the
colours gray/grey/yellow and white otherwise, and whose highlight is the
mapped highlight colour with fallback `darkGray` for names outside the
map. -/
theorem status_badge_rendering (strip done : Bool) (c txt : String)
    (h : containsSub "status-".data c.data = false) :
    walkOne strip (.span ["status", "status-" ++ c] (.cons (.text txt) .nil)) done
      = ([plainRun " ",
          { text := " " ++ pyStrip txt ++ " ", bold := true, fontSizePt := some 9,
            colorRGB := some (if c = "gray" ∨ c = "grey" ∨ c = "yellow"
                then ((0, 0, 0) : Nat × Nat × Nat) else (255, 255, 255)),
            highlight := some ((highlightMap.lookup c).getD "darkGray") },
          plainRun " "], done) := by
  have hgt : getTextList (.cons (.text txt) .nil) = txt := by
    show getTextOne (.text txt) ++ getTextList .nil = txt
    show txt ++ "" = txt
    simp
  show (if "status" ∈ ["status", "status-" ++ c]
      then (statusBadgeRuns ["status", "status-" ++ c]
              (getTextList (.cons (.text txt) .nil)), done)
      else walkList strip (.cons (.text txt) .nil) done) = _
  rw [if_pos (by simp)]
  rw [hgt]
  rw [statusBadgeRuns_concrete c txt h]

/-- C8 witness: the badge for the unknown colour `magenta` with text
`DONE`. -/
theorem status_badge_rendering_witness :
    containsSub "status-".data ("magenta" : String).data = false
    ∧ walkOne false (.span ["status", "status-" ++ "magenta"] (.cons (.text "DONE") .nil)) false
      = ([plainRun " ",
          { text := " " ++ pyStrip "DONE" ++ " ", bold := true, fontSizePt := some 9,
            colorRGB := some (if ("magenta" : String) = "gray" ∨ ("magenta" : String) = "grey"
                  ∨ ("magenta" : String) = "yellow"
                then ((0, 0, 0) : Nat × Nat × Nat) else (255, 255, 255)),
            highlight := some ((highlightMap.lookup "magenta").getD "darkGray") },
          plainRun " "], false) :=
  ⟨by decide, status_badge_rendering false false "magenta" "DONE" (by decide)⟩

theorem leafWalk_append (strip : Bool) (a : List Leaf) :
    ∀ (b : List Leaf) (d : Bool),
      leafWalk strip (a ++ b) d
        = ((leafWalk strip a d).1 ++ (leafWalk strip b (leafWalk strip a d).2).1,
           (leafWalk strip b (leafWalk strip a d).2).2) := by
  induction a with
  | nil => intro b d; simp [leafWalk]
  | cons l rest ih =>
    intro b d
    cases hl : leafText l with
    | some s => simp [leafWalk, hl, ih]
    | none => simp [leafWalk, hl, ih]

mutual
theorem walkOne_flatten (strip : Bool) (i : Inline) (d : Bool) :
    walkOne strip i d = leafWalk strip (flattenOne i) d := by
  cases i with
  | text s => simp [walkOne, flattenOne, leafWalk, leafText, emitLeaf]
  | strong s => simp [walkOne, flattenOne, leafWalk, leafText, emitLeaf]
  | em s => simp [walkOne, flattenOne, leafWalk, leafText, emitLeaf]
  | codeSpan s => simp [walkOne, flattenOne, leafWalk, leafText, emitLeaf]
  | link href s => simp [walkOne, flattenOne, leafWalk, leafText, emitLeaf]
  | strikeDel s => simp [walkOne, flattenOne, leafWalk, leafText, emitLeaf]
  | br => simp [walkOne, flattenOne, leafWalk, leafText, emitLeaf]
  | span classes ch =>
    by_cases hst : "status" ∈ classes
    · simp [walkOne, flattenOne, leafWalk, leafText, emitLeaf, hst]
    · simp only [walkOne, flattenOne, if_neg hst]
      exact walkList_flatten strip ch d
  | other ch =>
    simp only [walkOne, flattenOne]
    exact walkList_flatten strip ch d

theorem walkList_flatten (strip : Bool) (l : InlineList) (d : Bool) :
    walkList strip l d = leafWalk strip (flattenList l) d := by
  cases l with
  | nil => simp [walkList, flattenList, leafWalk]
  | cons i rest =>
    simp only [walkList, flattenList, leafWalk_append,
      walkOne_flatten strip i d, walkList_flatten strip rest]
end

theorem leafWalk_done (strip : Bool) (ls : List Leaf) :
    leafWalk strip ls true = (plainLeaves ls, true) := by
  induction ls with
  | nil => simp [leafWalk, plainLeaves]
  | cons l rest ih =>
    cases hl : leafText l with
    | some s => simp [leafWalk, hl, stripStep, plainLeaves, plainLeaf, ih]
    | none => simp [leafWalk, hl, plainLeaves, plainLeaf, ih]

theorem leafWalk_first_match (ls : List Leaf) :
    (leafWalk true ls false).1 = specEmit ls := by
  induction ls with
  | nil => simp [leafWalk, specEmit]
  | cons l rest ih =>
    cases hl : leafText l with
    | some s =>
      by_cases hm : (stripLeadingNumber s).2 = true
      · have hlm : leafMatches l = true := by simp [leafMatches, hl, hm]
        simp [leafWalk, hl, specEmit, hlm, stripStep, hm, leafWalk_done]
      · have hm' : (stripLeadingNumber s).2 = false := by
          simpa using hm
        have ht : (stripLeadingNumber s).1 = s := by
          have hbne : ((stripLeadingNumber s).1 != s) = false := hm'
          simpa [bne_eq_false_iff_eq] using hbne
        have hlm : leafMatches l = false := by simp [leafMatches, hl, hm']
        simp [leafWalk, hl, specEmit, hlm, stripStep, hm', ht, plainLeaf, ih]
    | none =>
      have hlm : leafMatches l = false := by simp [leafMatches, hl]
      simp [leafWalk, hl, specEmit, hlm, plainLeaf, ih]

/-- C7: for a heading whose level the heading-numbering table flags as
auto-numbered, the emitted runs equal the leaf segments of the heading's
inline content with the numeric prefix `\s*\d+(\.\d+)*\.\s+` stripped
exactly at the first text segment where it matches and nowhere else; in
particular the heading line `6. Title Text` at such a level renders as
`Title Text`. -/
theorem heading_number_strip_first_match :
    (∀ (numbered : Nat → Bool) (level : Nat) (content : InlineList),
        numbered level = true →
        (processHeading numbered level content).runs = specEmit (flattenList content))
    ∧ processHeading (fun l => decide (l = 2)) 2 (.cons (.text "6. Title Text") .nil)
        = { style := some "Heading 2", runs := [plainRun "Title Text"] } := by
  constructor
  · intro numbered level content h
    show (walkList (numbered level) content false).1 = _
    rw [h, walkList_flatten, leafWalk_first_match]
  · decide

/-- C7 witness: the general statement applied to the level-2-numbered
heading `6. Title Text`. -/
theorem heading_number_strip_first_match_witness :
    (fun l => decide (l = 2)) 2 = true
    ∧ (processHeading (fun l => decide (l = 2)) 2 (.cons (.text "6. Title Text") .nil)).runs
        = specEmit (flattenList (.cons (.text "6. Title Text") .nil)) :=
  ⟨by decide,
   heading_number_strip_first_match.1 (fun l => decide (l = 2)) 2
     (.cons (.text "6. Title Text") .nil) (by decide)⟩

/-- C8 counterexample: for the unknown colour name `magenta` the badge
highlight falls back to `darkGray`, which is not the highlight used for
the known colour `gray` (`lightGray`), so the fallback is not "the
default gray highlight". -/
theorem unknown_status_color_highlight_counterexample :
    ((statusBadgeRuns ["status", "status-magenta"] "DONE").get? 1).map Run.highlight
      = some (some "darkGray")
    ∧ ((statusBadgeRuns ["status", "status-gray"] "DONE").get? 1).map Run.highlight
      = some (some "lightGray")
    ∧ ¬ (((statusBadgeRuns ["status", "status-magenta"] "DONE").get? 1).map Run.highlight
        = ((statusBadgeRuns ["status", "status-gray"] "DONE").get? 1).map Run.highlight) :=
  ⟨by decide, by decide, by decide⟩

end Atlcli
